import Mathlib

/-
Shallow embedding of `Scripts/base_functions.py` (OSIBL-IRMS-processing).

Modelling conventions:
  * A DataFrame row is a `Row` structure.  The pandas columns used by the
    decision logic are fields: `id1` ("Identifier 1"), `time` ("Time", the raw
    time-of-day string used as the acquisition-group key), `rt` ("Rt"),
    `area` ("area" / "Area All"), `dateTime` (the numeric "date-time"; the code
    sorts by the parsed "date-time_true" and deduplicates the numeric
    "date-time", and `matplotlib.dates.date2num` is strictly monotone on parsed
    datetimes, so one numeric field models both), and `chain` (nullable).
  * Machine floats are modelled by `Rat`; missing values by `Option`.
  * Interactive `input()` calls consume a finite script (`List String`);
    `input()` on an exhausted script raises `EOFError` in Python, modelled by
    `PyError.eofError`.  Uncaught Python exceptions are `Except.error`.
  * File-system and plotting side effects (log appends, `create_subfolder`,
    the matplotlib rendering done before a near-tie prompt) return no data to
    the program and are not modelled; the spec treats them as external
    collaborators.
-/

/-- Python exceptions that the embedded code can raise. -/
inductive PyError : Type where
  | typeError
  | valueError
  | eofError
  | indexError
  | nameError
  deriving DecidableEq, Repr

/-- One row of the (already schema-normalized) run table. -/
structure Row : Type where
  id1 : String
  time : String
  rt : Rat
  area : Rat
  dateTime : Int
  chain : Option String
  deriving DecidableEq, Repr

/-- The first list is a prefix of the second (character scan). -/
def charsLead : List Char → List Char → Bool
  | [], _ => true
  | _ :: _, [] => false
  | p :: ps, c :: cs => p == c && charsLead ps cs

/-- The pattern occurs somewhere in the list (character scan). -/
def charsOccur (pat : List Char) : List Char → Bool
  | [] => pat.isEmpty
  | c :: cs => charsLead pat (c :: cs) || charsOccur pat cs

/-- Substring test: pandas `Series.str.contains(pat)` for a pattern without
regex metacharacters reduces to substring containment. -/
def strContains (s pat : String) : Bool :=
  charsOccur pat.data s.data

/-- An ASCII whitespace character, the characters `str.strip()` removes. -/
def isSpaceChar (c : Char) : Bool :=
  c == ' ' || c == '\t' || c == '\n' || c == '\r'

/-- Python `str.strip()`. -/
def pyStrip (s : String) : String :=
  ⟨(((s.data.dropWhile isSpaceChar).reverse).dropWhile isSpaceChar).reverse⟩

/-- ASCII lower-casing of one character, as `str.lower()` does on the ASCII
answers these prompts receive. -/
def lowerChar (c : Char) : Char :=
  if c.toNat ≥ 65 ∧ c.toNat ≤ 90 then Char.ofNat (c.toNat + 32) else c

/-- Python `str.lower()`. -/
def pyLower (s : String) : String :=
  ⟨s.data.map lowerChar⟩

/-- Python `str.split(",")`: splitting an empty string gives `[""]`. -/
def splitOnCommaGo : List Char → List Char → List String
  | acc, [] => [⟨acc.reverse⟩]
  | acc, c :: cs =>
    if c == ',' then ⟨acc.reverse⟩ :: splitOnCommaGo [] cs
    else splitOnCommaGo (c :: acc) cs

/-- `rt_values = rt_values.split(",")` (line 172). -/
def splitOnComma (s : String) : List String :=
  splitOnCommaGo [] s.data

/-- Equality test on `Except` values, used only to state concrete
evaluations. -/
instance {ε α : Type} [DecidableEq ε] [DecidableEq α] : DecidableEq (Except ε α) :=
  fun a b =>
    match a, b with
    | .ok x, .ok y =>
      if h : x = y then isTrue (by rw [h])
      else isFalse (by intro hh; cases hh; exact h rfl)
    | .ok _, .error _ => isFalse (by intro hh; cases hh)
    | .error _, .ok _ => isFalse (by intro hh; cases hh)
    | .error x, .error y =>
      if h : x = y then isTrue (by rw [h])
      else isFalse (by intro hh; cases hh; exact h rfl)

/-- Pandas `chain.isin(labels)` on a nullable string column: a missing value
is never a member. -/
def chainIn (r : Row) (labels : List String) : Bool :=
  match r.chain with
  | some c => labels.contains c
  | none => false

/-- Worker for `uniqueFirst`: values already emitted are in `seen`. -/
def uniqueFirstGo {α : Type} [DecidableEq α] (seen : List α) : List α → List α
  | [] => []
  | a :: l =>
    if a ∈ seen then uniqueFirstGo seen l
    else a :: uniqueFirstGo (a :: seen) l

/-- Pandas `Series.unique()`: distinct values in order of first appearance. -/
def uniqueFirst {α : Type} [DecidableEq α] (l : List α) : List α :=
  uniqueFirstGo [] l

theorem uniqueFirstGo_sublist {α : Type} [DecidableEq α] (l : List α) :
    ∀ seen, (uniqueFirstGo seen l).Sublist l := by
  induction l with
  | nil => intro seen; simp [uniqueFirstGo]
  | cons a l ih =>
    intro seen
    rw [uniqueFirstGo]
    by_cases h : a ∈ seen
    · rw [if_pos h]; exact (ih seen).cons a
    · rw [if_neg h]; exact (ih (a :: seen)).cons₂ a

theorem uniqueFirst_sublist {α : Type} [DecidableEq α] (l : List α) :
    (uniqueFirst l).Sublist l :=
  uniqueFirstGo_sublist l []

theorem mem_uniqueFirstGo {α : Type} [DecidableEq α] (l : List α) :
    ∀ (seen : List α) (a : α), a ∈ uniqueFirstGo seen l ↔ a ∈ l ∧ a ∉ seen := by
  induction l with
  | nil => intro seen a; simp [uniqueFirstGo]
  | cons b l ih =>
    intro seen a
    rw [uniqueFirstGo]
    by_cases hb : b ∈ seen
    · rw [if_pos hb]
      rw [ih seen a]
      simp only [List.mem_cons]
      constructor
      · rintro ⟨h1, h2⟩; exact ⟨Or.inr h1, h2⟩
      · rintro ⟨h1 | h1, h2⟩
        · exact absurd (h1 ▸ hb) h2
        · exact ⟨h1, h2⟩
    · rw [if_neg hb]
      simp only [List.mem_cons, ih (b :: seen) a, List.mem_cons]
      by_cases hab : a = b
      · subst hab; simp [hb]
      · simp [hab]
      
theorem mem_uniqueFirst {α : Type} [DecidableEq α] (l : List α) (a : α) :
    a ∈ uniqueFirst l ↔ a ∈ l := by
  rw [uniqueFirst, mem_uniqueFirstGo]
  simp

theorem nodup_uniqueFirstGo {α : Type} [DecidableEq α] (l : List α) :
    ∀ seen, (uniqueFirstGo seen l).Nodup := by
  induction l with
  | nil => intro seen; simp [uniqueFirstGo]
  | cons a l ih =>
    intro seen
    rw [uniqueFirstGo]
    by_cases h : a ∈ seen
    · rw [if_pos h]; exact ih seen
    · rw [if_neg h]
      refine List.nodup_cons.mpr ⟨?_, ih (a :: seen)⟩
      intro hmem
      exact ((mem_uniqueFirstGo l (a :: seen) a).mp hmem).2 (List.mem_cons_self a seen)

theorem nodup_uniqueFirst {α : Type} [DecidableEq α] (l : List α) :
    (uniqueFirst l).Nodup :=
  nodup_uniqueFirstGo l []

/-
The `Rat` arithmetic operations of the standard library are `@[irreducible]`,
so the kernel cannot evaluate them on the concrete inputs of the witness
theorems.  The embedding therefore computes with the following wrappers,
each proved equal to the standard operation.
-/

/-- Negation on `Rat`, written so that the kernel evaluates it. -/
def ratNeg (q : Rat) : Rat := mkRat (-q.num) q.den

theorem ratNeg_eq (q : Rat) : ratNeg q = -q := by
  rw [ratNeg, Rat.mkRat_eq_div]
  push_cast
  rw [neg_div, Rat.num_div_den]

/-- Addition on `Rat`, written so that the kernel evaluates it. -/
def ratAdd (a b : Rat) : Rat :=
  mkRat (a.num * (b.den : Int) + b.num * (a.den : Int)) (a.den * b.den)

theorem ratAdd_eq (a b : Rat) : ratAdd a b = a + b := by
  have ha : ((a.den : Rat)) ≠ 0 := Nat.cast_ne_zero.mpr a.den_nz
  have hb : ((b.den : Rat)) ≠ 0 := Nat.cast_ne_zero.mpr b.den_nz
  rw [ratAdd, Rat.mkRat_eq_div]
  conv_rhs => rw [← Rat.num_div_den a, ← Rat.num_div_den b]
  rw [div_add_div _ _ ha hb]
  push_cast
  ring_nf

/-- Subtraction on `Rat`, written so that the kernel evaluates it. -/
def ratSub (a b : Rat) : Rat :=
  mkRat (a.num * (b.den : Int) - b.num * (a.den : Int)) (a.den * b.den)

theorem ratSub_eq (a b : Rat) : ratSub a b = a - b := by
  have ha : ((a.den : Rat)) ≠ 0 := Nat.cast_ne_zero.mpr a.den_nz
  have hb : ((b.den : Rat)) ≠ 0 := Nat.cast_ne_zero.mpr b.den_nz
  rw [ratSub, Rat.mkRat_eq_div]
  conv_rhs => rw [← Rat.num_div_den a, ← Rat.num_div_den b]
  rw [div_sub_div _ _ ha hb]
  push_cast
  ring_nf

/-- Multiplication on `Rat`, written so that the kernel evaluates it. -/
def ratMul (a b : Rat) : Rat := mkRat (a.num * b.num) (a.den * b.den)

theorem ratMul_eq (a b : Rat) : ratMul a b = a * b := by
  have ha : ((a.den : Rat)) ≠ 0 := Nat.cast_ne_zero.mpr a.den_nz
  have hb : ((b.den : Rat)) ≠ 0 := Nat.cast_ne_zero.mpr b.den_nz
  rw [ratMul, Rat.mkRat_eq_div]
  conv_rhs => rw [← Rat.num_div_den a, ← Rat.num_div_den b]
  rw [div_mul_div_comm]
  push_cast
  ring_nf

/-- Absolute value on `Rat`, written so that the kernel evaluates it. -/
def ratAbs (q : Rat) : Rat := if q < 0 then ratNeg q else q

theorem ratAbs_eq (q : Rat) : ratAbs q = |q| := by
  rw [ratAbs]
  split
  · rw [ratNeg_eq, abs_of_neg (by assumption)]
  · rw [abs_of_nonneg (not_lt.mp (by assumption))]

/-- Binary minimum on `Rat`, written so that the kernel evaluates it. -/
def ratMin (a b : Rat) : Rat := if a ≤ b then a else b

theorem ratMin_eq (a b : Rat) : ratMin a b = min a b := by
  rw [ratMin, min_def]

/-- Pandas `Series.min()` on the list of values (`none` for an empty series;
the code's subsequent `<=` comparison against `NaN` selects nothing, which the
callers of this function reproduce). -/
def listMin : List Rat → Option Rat
  | [] => none
  | a :: l =>
    match listMin l with
    | none => some a
    | some m => some (ratMin a m)

theorem listMin_mem : ∀ {l : List Rat} {m : Rat}, listMin l = some m → m ∈ l := by
  intro l
  induction l with
  | nil => intro m h; simp [listMin] at h
  | cons a l ih =>
    intro m h
    rw [listMin] at h
    cases hl : listMin l with
    | none => rw [hl] at h; simp at h; simp [h]
    | some m' =>
      rw [hl] at h
      simp [ratMin_eq] at h
      rcases le_total a m' with hle | hle
      · rw [min_eq_left hle] at h; simp [h.symm]
      · rw [min_eq_right hle] at h
        exact List.mem_cons_of_mem _ (h ▸ ih hl)

theorem listMin_le : ∀ {l : List Rat} {m : Rat}, listMin l = some m →
    ∀ x ∈ l, m ≤ x := by
  intro l
  induction l with
  | nil => intro m h; simp [listMin] at h
  | cons a l ih =>
    intro m h x hx
    rw [listMin] at h
    cases hl : listMin l with
    | none =>
      rw [hl] at h
      simp at h
      cases l with
      | nil => simp at hx; rw [hx, h]
      | cons b l' =>
        rw [listMin] at hl
        cases hinner : listMin l' <;> rw [hinner] at hl <;> simp at hl
    | some m' =>
      rw [hl] at h
      simp [ratMin_eq] at h
      rcases List.mem_cons.mp hx with hxa | hxl
      · rw [hxa, ← h]; exact min_le_left _ _
      · exact le_trans (h ▸ min_le_right a m') (ih hl x hxl)

theorem listMin_eq_some {l : List Rat} {m : Rat} (hm : m ∈ l)
    (hle : ∀ x ∈ l, m ≤ x) : listMin l = some m := by
  cases hl : listMin l with
  | none =>
    exfalso
    cases l with
    | nil => simp at hm
    | cons a l' =>
      rw [listMin] at hl
      cases hinner : listMin l' <;> rw [hinner] at hl <;> simp at hl
  | some m' =>
    have h1 : m' ∈ l := listMin_mem hl
    have h2 : m ≤ m' := hle m' h1
    have h3 : m' ≤ m := listMin_le hl m hm
    rw [le_antisymm h2 h3]

/-- Digit-string to number (no sign, no separators); `none` on empty input or
any non-digit character. -/
def parseDigits (cs : List Char) : Option Nat :=
  if cs.isEmpty then none
  else
    cs.foldl
      (fun acc c =>
        match acc with
        | none => none
        | some n => if c.isDigit then some (n * 10 + (c.toNat - 48)) else none)
      (some 0)

/-- Python `int(s)` on an already-stripped string: optional sign, then digits;
any other shape raises `ValueError` (modelled by `none`). -/
def parseInt (s : String) : Option Int :=
  match s.data with
  | '-' :: cs => (parseDigits cs).map (fun n => -(n : Int))
  | '+' :: cs => (parseDigits cs).map (fun n => (n : Int))
  | cs => (parseDigits cs).map (fun n => (n : Int))

/-- Split a character list on the decimal point. -/
def splitOnDotGo : List Char → List Char → List (List Char)
  | acc, [] => [acc.reverse]
  | acc, c :: cs =>
    if c == '.' then acc.reverse :: splitOnDotGo [] cs
    else splitOnDotGo (c :: acc) cs

/-- Unsigned decimal literal: `digits`, `digits.digits`, `digits.` or
`.digits`. -/
def parseFloatCore (cs : List Char) : Option Rat :=
  match splitOnDotGo [] cs with
  | [ip] => (parseDigits ip).map (fun n => mkRat (n : Int) 1)
  | [ip, fp] =>
    if ip.isEmpty && fp.isEmpty then none
    else
      match (if ip.isEmpty then some 0 else parseDigits ip),
          (if fp.isEmpty then some 0 else parseDigits fp) with
      | some i, some f => some (ratAdd (mkRat (i : Int) 1) (mkRat (f : Int) (10 ^ fp.length)))
      | _, _ => none
  | _ => none

/-- Python `float(s)` on an already-stripped string, restricted to the plain
decimal literals this program's prompts expect; anything else raises
`ValueError` (modelled by `none`). -/
def parseFloat (s : String) : Option Rat :=
  match s.data with
  | '-' :: cs => (parseFloatCore cs).map ratNeg
  | '+' :: cs => parseFloatCore cs
  | cs => parseFloatCore cs

/-- The nine recognized chain labels (`chain_lengths` in `ask_user_for_rt`;
the identical literal list reappears as the export filter of
`process_dataframe`, line 245). -/
def chain_lengths : List String :=
  ["C16", "C18", "C20", "C22", "C24", "C26", "C28", "C30", "C32"]

/-- A reference retention-time table: chain label to expected retention time
or `none` ("unused"). -/
abbrev RtDict := List (String × Option Rat)

/-- One token of the comma-separated reference list:
`None if rt.strip().lower() == "none" else float(rt.strip())`. -/
def parseRtToken (tok : String) : Option (Option Rat) :=
  if pyLower (pyStrip tok) = "none" then some none
  else (parseFloat (pyStrip tok)).map some

/-- The dict comprehension over all nine tokens; the first failing `float`
raises `ValueError` (`none`). -/
def parseRtValues : List String → Option (List (Option Rat))
  | [] => some []
  | tok :: rest =>
    match parseRtToken tok, parseRtValues rest with
    | some v, some vs => some (v :: vs)
    | _, _ => none

/-- `ask_user_for_rt` (lines 165-183).  `pos_response` / `neg_response` live in
the repository's `queries` module, which is not under `src/`; following the
spec ("affirmative/negative token recognition is externally supplied"), they
are parameters.  The interactive session is a script of `input()` answers; an
exhausted script models `input()` raising `EOFError`.  Returns the chosen
reference table (or `none` when the operator declines) plus the unread rest of
the script. -/
def ask_user_for_rt (pos_response neg_response : String → Bool)
    (script : List String) : Except PyError (Option RtDict × List String) :=
  match script with
  | [] => .error .eofError
  | resp :: rest =>
    let response := pyLower (pyStrip resp)
    if pos_response response then
      match rest with
      | [] => .error .eofError
      | line :: rest2 =>
        let rt_values := splitOnComma line
        if rt_values.length = chain_lengths.length then
          match parseRtValues rt_values with
          | some vals => .ok (some (chain_lengths.zip vals), rest2)
          | none => .error .valueError
        else ask_user_for_rt pos_response neg_response rest2
    else if neg_response response then .ok (none, rest)
    else ask_user_for_rt pos_response neg_response rest

/-- Comparison of rows by acquisition timestamp, the key of
`drift_std.sort_values("date-time_true")`. -/
def byTime (a b : Row) : Prop := a.dateTime ≤ b.dateTime

instance : DecidableRel byTime :=
  fun a b => inferInstanceAs (Decidable (a.dateTime ≤ b.dateTime))

instance : IsTotal Row byTime := ⟨fun a b => Int.le_total a.dateTime b.dateTime⟩

instance : IsTrans Row byTime := ⟨fun _ _ _ h1 h2 => le_trans h1 h2⟩

/-- Linearity standards (lines 91-92): identifier contains both "C20" and
"C28", and the chain label is one of them. -/
def linearity_std (df : List Row) : List Row :=
  (df.filter (fun r => strContains r.id1 "C20" && strContains r.id1 "C28")).filter
    (fun r => chainIn r ["C20", "C28"])

/-- Drift standards before the stabilization-run removal (lines 95-96). -/
def drift_std_pre (df : List Row) : List Row :=
  (df.filter (fun r => strContains r.id1 "C18" && strContains r.id1 "C24")).filter
    (fun r => chainIn r ["C18", "C24"])

/-- `drift_std.sort_values("date-time_true")` (line 100). -/
def drift_sorted (df : List Row) : List Row :=
  List.insertionSort byTime (drift_std_pre df)

/-- `unique_time_signatures[:2]` (lines 101-103): the first two distinct
numeric timestamps of the sorted drift table. -/
def time_signatures_to_remove (df : List Row) : List Int :=
  (uniqueFirst ((drift_sorted df).map Row.dateTime)).take 2

/-- The drift table returned by `import_data` (line 104): sorted by timestamp,
with every row carrying one of the two earliest distinct timestamps removed. -/
def drift_std (df : List Row) : List Row :=
  (drift_sorted df).filter
    (fun r => !(time_signatures_to_remove df).contains r.dateTime)

/-- Unknown samples (lines 106-110).  Note: `str.contains` interprets its
pattern as a regular expression, and the pattern `"H3+"` ("H", then one or
more "3") matches a string iff it contains the substring "H3". -/
def unknown_pre (df : List Row) : List Row :=
  ((df.filter
        (fun r => !(strContains r.id1 "C18" && strContains r.id1 "C24"))).filter
      (fun r => !(strContains r.id1 "C20" && strContains r.id1 "C28"))).filter
    (fun r => !strContains r.id1 "H3")

/-- The whitelist applied to unknowns when the operator declines
classification (line 118; the source literal repeats "C24"). -/
def unknown_whitelist : List String :=
  ["C16", "C18", "C20", "C22", "C24", "C24", "C26", "C28", "C30", "C32"]

/-- `make_correction_df` (lines 10-17): the Correction Log scaffold. -/
def make_correction_df : List (String × Nat) :=
  [("Drift", 0), ("Linearity", 0), ("VSMOW", 0), ("Methylation", 0)]

/-- The body of the loop `for i in [unknown, drift_std, linearity_std]:
i = i[~i.chain.isna()]` (lines 119-120).  In Python this rebinds the loop
variable `i` only; none of the three tables is modified, so `import_tail`
below does not apply this function to its results. -/
def dropNaLoop (tables : List (List Row)) : List (List Row) :=
  tables.map (fun i => i.filter (fun r => !r.chain.isNone))

/-- The defaulted `threshold=0.05` parameter of `closest_rt`. -/
def closest_rt_threshold : Rat := mkRat 1 20

/-- `df[df["Time"] == time_val]`: the acquisition group of one injection. -/
def groupRows (df : List Row) (time_val : String) : List Row :=
  df.filter (fun r => decide (r.time = time_val))

/-- `(sample_df["Rt"] - target_rt).abs()`: one entry of the difference
series. -/
def rtDiff (target_rt : Rat) (r : Row) : Rat := ratAbs (ratSub r.rt target_rt)

/-- `differences <= min_diff * (1 + threshold)`: the tolerance-band test. -/
def inBand (min_diff target_rt : Rat) (r : Row) : Bool :=
  decide (rtDiff target_rt r ≤ ratMul min_diff (ratAdd 1 closest_rt_threshold))

/-- `closest_rt` (lines 153-162): all rows of the group whose absolute
retention-time difference from the target is within `(1 + threshold)` times
the minimum difference.  An empty group gives `min() = NaN`, and comparison
with `NaN` selects nothing. -/
def closest_rt (df : List Row) (time_val : String) (target_rt : Rat) : List Row :=
  match listMin ((groupRows df time_val).map (rtDiff target_rt)) with
  | none => []
  | some min_diff => (groupRows df time_val).filter (inBand min_diff target_rt)

/-- Pointwise effect of
`df.loc[(df["Time"] == time_val) & (df["Rt"] == correct_rt), "chain"] = chain`. -/
def assignFun (time_val : String) (correct_rt : Rat) (chain : String) (r : Row) : Row :=
  if r.time = time_val ∧ r.rt = correct_rt then { r with chain := some chain } else r

/-- The `.loc` masked assignment itself. -/
def assignChain (df : List Row) (time_val : String) (correct_rt : Rat)
    (chain : String) : List Row :=
  df.map (assignFun time_val correct_rt chain)

/-- Pandas `.iloc[i]` on a list: negative indices wrap once; anything out of
bounds raises `IndexError` (`none`). -/
def iloc (l : List Row) (i : Int) : Option Row :=
  let n : Int := l.length
  let j : Int := if i < 0 then i + n else i
  if 0 ≤ j ∧ j < n then l[j.toNat]? else none

/-- One iteration of `for chain, rt in filtered_rt_dict.items()` inside
`process_dataframe` (lines 197-244): skip a null reference; auto-assign a
unique closest row; on a near-tie render the candidates (side effect, not
modelled) and consume one interactive answer — "none" skips, a number picks
`closest_rows.iloc[choice - 1]`, a non-numeric answer raises `ValueError`. -/
def stepChain (time_val chain : String) (rt : Option Rat) (df : List Row)
    (script : List String) : Except PyError (List Row × List String) :=
  match rt with
  | none => .ok (df, script)
  | some target =>
    match closest_rt df time_val target with
    | [] => .ok (df, script)
    | [w] => .ok (assignChain df time_val w.rt chain, script)
    | w1 :: w2 :: ws =>
      match script with
      | [] => .error .eofError
      | choiceStr :: rest =>
        let choice := pyLower (pyStrip choiceStr)
        if choice = "none" then .ok (df, rest)
        else
          match parseInt choice with
          | none => .error .valueError
          | some n =>
            match iloc (w1 :: w2 :: ws) (n - 1) with
            | none => .error .indexError
            | some w => .ok (assignChain df time_val w.rt chain, rest)

/-- The full reference-table loop for one acquisition group. -/
def runChains (time_val : String) (rt_dict : RtDict) (df : List Row)
    (script : List String) : Except PyError (List Row × List String) :=
  match rt_dict with
  | [] => .ok (df, script)
  | (chain, rt) :: rest =>
    match stepChain time_val chain rt df script with
    | .error e => .error e
    | .ok (df', script') => runChains time_val rest df' script'

/-- The outer `for time_val in unique_times` loop. -/
def runTimes (rt_dict : RtDict) (unique_times : List String) (df : List Row)
    (script : List String) : Except PyError (List Row × List String) :=
  match unique_times with
  | [] => .ok (df, script)
  | t :: ts =>
    match runChains t rt_dict df script with
    | .error e => .error e
    | .ok (df', script') => runTimes rt_dict ts df' script'

/-- `df["chain"] = None` (line 190), applied per row. -/
def stripChain (r : Row) : Row := { r with chain := none }

/-- `process_dataframe` (lines 186-247): reset the chain column, classify each
acquisition group against the reference table, then keep only rows labeled
with one of the nine accepted chains (line 245 repeats the `chain_lengths`
literal). -/
def process_dataframe (df : List Row) (rt_dict : Option RtDict)
    (folder_path : String) (script : List String) : Except PyError (List Row) :=
  match rt_dict with
  | none => .ok df
  | some dict =>
    let df0 := df.map stripChain
    let unique_times := uniqueFirst (df0.map Row.time)
    match runTimes dict unique_times df0 script with
    | .error e => .error e
    | .ok (dfF, _) => .ok (dfF.filter (fun r => chainIn r chain_lengths))

/-- Number of parameters of `def process_dataframe(df, rt_dict, folder_path,
log_file_path)` (line 186); none has a default. -/
def process_dataframe_param_count : Nat := 4

/-- Number of arguments in each call `process_dataframe(<table>, rt_dict,
folder_path)` inside `import_data` (lines 113, 115, 116). -/
def import_data_call_arg_count : Nat := 3

/-- The tail of `import_data` (lines 91-122), starting after schema
normalization: segregate the run table, ask about retention-time
classification, and return the three tables plus the Correction Log scaffold.
On the opt-in path every call `process_dataframe(unknown, rt_dict,
folder_path)` passes 3 arguments to a function with 4 required parameters, so
Python raises `TypeError` at the call and the function bodies never run.  The
final loop `for i in [...]: i = i[~i.chain.isna()]` rebinds its loop variable
only (see `dropNaLoop`) and is therefore absent here. -/
def import_tail (pos_response neg_response : String → Bool) (df : List Row)
    (script : List String) :
    Except PyError (List Row × List Row × List Row × List (String × Nat)) :=
  let linearity := linearity_std df
  let drift := drift_std df
  let unknown := unknown_pre df
  match ask_user_for_rt pos_response neg_response script with
  | .error e => .error e
  | .ok (some _, _) => .error .typeError
  | .ok (none, _) =>
    .ok (linearity, drift, unknown.filter (fun r => chainIn r unknown_whitelist),
      make_correction_df)

/-- First column whose name contains the pattern:
`df.columns[df.columns.str.contains(name)][0]`. -/
def firstContaining (cols : List String) (name : String) : Option String :=
  (cols.filter (fun c => strContains c name)).head?

/-- `df.rename(columns={target: canon})` at the level of column names; the
Bool marks columns that were created filled with `pd.NA`. -/
def renameAll (cols : List (String × Bool)) (target canon : String) :
    List (String × Bool) :=
  cols.map (fun c => if c.1 = target then (canon, c.2) else c)

/-- The header-normalization loop (lines 72-84) over column names.  For each
expected source name: if it appears *exactly* among the columns, the first
column *containing* it is renamed to `new_name[x]` and `x` advances; otherwise
`df[name] = pd.NA` appends a column named by the *source* name (flagged true)
and `x` does not advance. -/
def renameLoopGo : List (String × Bool) → List String → List String →
    List (String × Bool)
  | cols, [], _ => cols
  | cols, name :: names, canons =>
    if (cols.map Prod.fst).contains name then
      match firstContaining (cols.map Prod.fst) name, canons with
      | some target, canon :: rest => renameLoopGo (renameAll cols target canon) names rest
      | _, _ => cols
        -- both fallbacks are unreachable here: exact membership implies a
        -- containing column, and at most one canonical name is consumed per
        -- source name, with both lists of length 3
    else renameLoopGo (cols ++ [(name, true)]) names canons

/-- `iso_rat` selection (lines 74-77); any other isotope token leaves
`iso_rat` unbound and line 78 raises `NameError`. -/
def iso_rat_of (isotope : String) : Except PyError String :=
  if isotope = "dD" then .ok "d 2H/1H"
  else if isotope = "dC" then .ok "d 13C/12C"
  else .error .nameError

/-- Schema normalization of the column-name list (lines 72-84):
`new_name = [str(isotope), "area", "chain"]` against the expected source
names `[iso_rat, "Area All", "Component"]`. -/
def normalize_columns (isotope : String) (cols : List (String × Bool)) :
    Except PyError (List (String × Bool)) :=
  match iso_rat_of isotope with
  | .error e => .error e
  | .ok iso_rat =>
    .ok (renameLoopGo cols [iso_rat, "Area All", "Component"] [isotope, "area", "chain"])

/-- A `chain.isin` success means the label is set. -/
theorem chainIn_ne_none {r : Row} {labels : List String}
    (h : chainIn r labels = true) : r.chain ≠ none := by
  intro hc
  rw [chainIn, hc] at h
  exact Bool.false_ne_true h

/-- Membership in the linearity table forces both marker tests and the chain
filter. -/
theorem mem_linearity_std {df : List Row} {r : Row} (h : r ∈ linearity_std df) :
    r ∈ df ∧ (strContains r.id1 "C20" && strContains r.id1 "C28") = true ∧
      chainIn r ["C20", "C28"] = true := by
  rw [linearity_std] at h
  rw [List.mem_filter] at h
  obtain ⟨h1, h2⟩ := h
  rw [List.mem_filter] at h1
  exact ⟨h1.1, h1.2, h2⟩

/-- Membership in the pre-removal drift table forces both marker tests and the
chain filter. -/
theorem mem_drift_std_pre {df : List Row} {r : Row} (h : r ∈ drift_std_pre df) :
    r ∈ df ∧ (strContains r.id1 "C18" && strContains r.id1 "C24") = true ∧
      chainIn r ["C18", "C24"] = true := by
  rw [drift_std_pre] at h
  rw [List.mem_filter] at h
  obtain ⟨h1, h2⟩ := h
  rw [List.mem_filter] at h1
  exact ⟨h1.1, h1.2, h2⟩

/-- The final drift table is drawn from the pre-removal drift table. -/
theorem mem_drift_std {df : List Row} {r : Row} (h : r ∈ drift_std df) :
    r ∈ drift_std_pre df := by
  rw [drift_std] at h
  rw [List.mem_filter] at h
  exact (List.perm_insertionSort byTime (drift_std_pre df)).mem_iff.mp h.1

/-- Membership in the unknown table forces the three negative marker tests. -/
theorem mem_unknown_pre {df : List Row} {r : Row} (h : r ∈ unknown_pre df) :
    r ∈ df ∧ (strContains r.id1 "C18" && strContains r.id1 "C24") = false ∧
      (strContains r.id1 "C20" && strContains r.id1 "C28") = false ∧
      strContains r.id1 "H3" = false := by
  rw [unknown_pre] at h
  rw [List.mem_filter] at h
  obtain ⟨h1, h3⟩ := h
  rw [List.mem_filter] at h1
  obtain ⟨h1, h2⟩ := h1
  rw [List.mem_filter] at h1
  obtain ⟨h0, h1⟩ := h1
  refine ⟨h0, ?_, ?_, ?_⟩
  · cases hb : (strContains r.id1 "C18" && strContains r.id1 "C24") with
    | false => rfl
    | true => rw [hb] at h1; exact absurd h1 (by decide)
  · cases hb : (strContains r.id1 "C20" && strContains r.id1 "C28") with
    | false => rfl
    | true => rw [hb] at h2; exact absurd h2 (by decide)
  · cases hb : strContains r.id1 "H3" with
    | false => rfl
    | true => rw [hb] at h3; exact absurd h3 (by decide)

/-- A chain label cannot lie in both the linearity pair and the drift pair. -/
theorem chainIn_pair_disjoint {r : Row} (h1 : chainIn r ["C20", "C28"] = true)
    (h2 : chainIn r ["C18", "C24"] = true) : False := by
  rw [chainIn] at h1 h2
  cases hc : r.chain with
  | none => rw [hc] at h1; exact Bool.false_ne_true h1
  | some c =>
    rw [hc] at h1 h2
    simp only [List.contains, List.elem_iff, List.mem_cons,
      List.not_mem_nil, or_false] at h1 h2
    rcases h1 with h1 | h1 <;> rcases h2 with h2 | h2 <;>
      rw [h1] at h2 <;> exact absurd h2 (by decide)

/-- No row is in both the linearity and the drift output. -/
theorem lin_drift_disjoint {df : List Row} {r : Row} (h1 : r ∈ linearity_std df)
    (h2 : r ∈ drift_std df) : False :=
  chainIn_pair_disjoint (mem_linearity_std h1).2.2
    (mem_drift_std_pre (mem_drift_std h2)).2.2

/-- No row is in both the linearity and the unknown output. -/
theorem lin_unknown_disjoint {df : List Row} {r : Row} (h1 : r ∈ linearity_std df)
    (h3 : r ∈ unknown_pre df) : False := by
  have ha := (mem_linearity_std h1).2.1
  have hb := (mem_unknown_pre h3).2.2.1
  rw [ha] at hb
  exact absurd hb (by decide)

/-- No row is in both the drift and the unknown output. -/
theorem drift_unknown_disjoint {df : List Row} {r : Row} (h2 : r ∈ drift_std df)
    (h3 : r ∈ unknown_pre df) : False := by
  have ha := (mem_drift_std_pre (mem_drift_std h2)).2.1
  have hb := (mem_unknown_pre h3).2.1
  rw [ha] at hb
  exact absurd hb (by decide)

/-- Claim C7: each input row belongs to at most one of the three segregation
outputs; mutual exclusivity of linearity standards, drift standards and
unknown samples. -/
theorem segregation_mutually_exclusive (df : List Row) (r : Row) :
    (if r ∈ linearity_std df then 1 else 0) + (if r ∈ drift_std df then 1 else 0) +
      (if r ∈ unknown_pre df then 1 else 0) ≤ 1 := by
  by_cases h1 : r ∈ linearity_std df <;> by_cases h2 : r ∈ drift_std df <;>
    by_cases h3 : r ∈ unknown_pre df
  all_goals first
    | exact (lin_drift_disjoint ‹_› ‹_›).elim
    | exact (lin_unknown_disjoint ‹_› ‹_›).elim
    | exact (drift_unknown_disjoint ‹_› ‹_›).elim
    | (simp only [h1, h2, h3, if_true, if_false, if_pos, if_neg,
        not_false_iff]; omega)

/-- Definition following the words of claim C8 ("does not contain both C18 and
C24, does not contain both C20 and C28, and does not contain the calibration
marker H3+" — the marker read as a literal substring), for comparison with the
code's regex-based filter. -/
def unknown_claim_pred (r : Row) : Bool :=
  !(strContains r.id1 "C18" && strContains r.id1 "C24") &&
    (!(strContains r.id1 "C20" && strContains r.id1 "C28") &&
      !strContains r.id1 "H3+")

/-- A row whose identifier contains "H3" but not the literal "H3+". -/
def c8row : Row :=
  { id1 := "H3 cal", time := "T", rt := 1, area := 1, dateTime := 0, chain := none }

/-- Claim C8 counterexample: this row passes all three of the claim's literal
marker tests, yet the code excludes it from the unknown-samples output,
because `str.contains("H3+")` is a regex match equivalent to containing the
substring "H3". -/
theorem unknown_claim_pred_counterexample :
    unknown_claim_pred c8row = true ∧ c8row ∉ unknown_pre [c8row] := by decide

/-- Claim C8 amended: the unknown output consists of exactly the rows that
fail the two pair-marker tests and whose identifier does not contain "H3"
(the regex reading of the pattern "H3+"). -/
theorem mem_unknown_pre_iff (df : List Row) (r : Row) :
    r ∈ unknown_pre df ↔
      r ∈ df ∧ (strContains r.id1 "C18" && strContains r.id1 "C24") = false ∧
        (strContains r.id1 "C20" && strContains r.id1 "C28") = false ∧
        strContains r.id1 "H3" = false := by
  constructor
  · exact mem_unknown_pre
  · rintro ⟨h0, h1, h2, h3⟩
    rw [unknown_pre]
    rw [List.mem_filter]
    refine ⟨?_, by rw [h3]; rfl⟩
    rw [List.mem_filter]
    refine ⟨?_, by rw [h2]; rfl⟩
    rw [List.mem_filter]
    exact ⟨h0, by rw [h1]; rfl⟩

/-- The failing input of claim C5: a run export that has the isotope-ratio and
component columns but no column containing "Area All". -/
def c5cols : List (String × Bool) :=
  [("d 2H/1H", false), ("Component", false), ("Identifier 1", false),
    ("Date", false), ("Time", false), ("Rt", false)]

/-- Claim C5: evaluating the normalization loop at the failing input.  The
claim (and spec) require a canonical NA-filled "area" column and a "chain"
column renamed from "Component"; the code instead appends an NA column named
by the source name "Area All" and, because `x` is not advanced on the missing
column, renames "Component" to "area".  No "chain" column exists afterwards,
although lines 92 and 96 immediately access `.chain`. -/
theorem normalize_columns_missing_area_bug :
    normalize_columns "dD" c5cols =
      .ok [("dD", false), ("area", false), ("Identifier 1", false), ("Date", false),
        ("Time", false), ("Rt", false), ("Area All", true)] ∧
      "chain" ∉ [("dD", false), ("area", false), ("Identifier 1", false),
        ("Date", false), ("Time", false), ("Rt", false),
        ("Area All", true)].map Prod.fst ∧
      ("Area All", true) ∈ [("dD", false), ("area", false), ("Identifier 1", false),
        ("Date", false), ("Time", false), ("Rt", false), ("Area All", true)] := by
  decide

/-- Four drift-standard rows whose acquisition order is the reverse of their
timestamp order. -/
def c4r1 : Row :=
  { id1 := "C18 C24 drift", time := "T1", rt := 1, area := 1, dateTime := 4, chain := some "C18" }

def c4r2 : Row :=
  { id1 := "C18 C24 drift", time := "T2", rt := 2, area := 1, dateTime := 3, chain := some "C18" }

def c4r3 : Row :=
  { id1 := "C18 C24 drift", time := "T3", rt := 3, area := 1, dateTime := 2, chain := some "C24" }

def c4r4 : Row :=
  { id1 := "C18 C24 drift", time := "T4", rt := 4, area := 1, dateTime := 1, chain := some "C24" }

def c4df : List Row := [c4r1, c4r2, c4r3, c4r4]

/-- Claim C4 counterexample: on this input the drift output is `[c4r2, c4r1]`,
while the input lists `c4r1` before `c4r2`; the drift output is not a
subsequence of the input, because line 100 sorts the drift table by
timestamp. -/
theorem drift_std_breaks_input_order :
    drift_std c4df = [c4r2, c4r1] ∧ ¬ (drift_std c4df).Sublist c4df := by
  constructor
  · decide
  · decide

/-- Claim C4 amended: the linearity and unknown outputs preserve the input
row order (they are subsequences of the input); the drift output consists of
input rows but is ordered by ascending timestamp instead. -/
theorem segregation_order (df : List Row) :
    (linearity_std df).Sublist df ∧ (unknown_pre df).Sublist df ∧
      List.Pairwise byTime (drift_std df) ∧ ∀ r ∈ drift_std df, r ∈ df := by
  refine ⟨?_, ?_, ?_, ?_⟩
  · exact (List.filter_sublist _).trans (List.filter_sublist _)
  · exact (List.filter_sublist _).trans
      ((List.filter_sublist _).trans (List.filter_sublist _))
  · exact List.Pairwise.sublist (List.filter_sublist _)
      (List.sorted_insertionSort byTime (drift_std_pre df))
  · intro r hr
    exact (mem_drift_std_pre (mem_drift_std hr)).1

/-- Claim C3: whenever `import_data`'s tail returns, no returned table
contains a row with an unset chain label.  (The literal removal loop of lines
119-120 is a no-op — see `dropNaLoop` — but each returned table was already
produced by an `isin` filter that no null-chain row passes.) -/
theorem import_tail_no_unlabeled (pos neg : String → Bool) (df : List Row)
    (script : List String) (lin dr unk : List Row) (cl : List (String × Nat))
    (h : import_tail pos neg df script = .ok (lin, dr, unk, cl)) :
    (∀ r ∈ lin, r.chain ≠ none) ∧ (∀ r ∈ dr, r.chain ≠ none) ∧
      ∀ r ∈ unk, r.chain ≠ none := by
  rw [import_tail] at h
  cases hask : ask_user_for_rt pos neg script with
  | error e => rw [hask] at h; exact absurd h (by simp)
  | ok p =>
    obtain ⟨rtd, rest⟩ := p
    rw [hask] at h
    cases rtd with
    | some d => exact absurd h (by simp)
    | none =>
      simp only [Except.ok.injEq, Prod.mk.injEq] at h
      obtain ⟨h1, h2, h3, _⟩ := h
      refine ⟨?_, ?_, ?_⟩
      · intro r hr
        rw [← h1] at hr
        exact chainIn_ne_none (mem_linearity_std hr).2.2
      · intro r hr
        rw [← h2] at hr
        exact chainIn_ne_none (mem_drift_std_pre (mem_drift_std hr)).2.2
      · intro r hr
        rw [← h3] at hr
        exact chainIn_ne_none (List.mem_filter.mp hr).2

/-- Affirmative-token recognition used in the concrete witnesses. -/
def wPos : String → Bool := fun s => s == "y"

/-- Negative-token recognition used in the concrete witnesses. -/
def wNeg : String → Bool := fun s => s == "n"

/-- An unknown-sample row carrying an accepted chain label. -/
def c3row : Row :=
  { id1 := "sample A", time := "T1", rt := 1, area := 1, dateTime := 0, chain := some "C16" }

/-- Claim C3 witness: a concrete opt-out run of `import_tail` together with
the no-unlabeled-row conclusion at that run. -/
theorem import_tail_no_unlabeled_witness :
    import_tail wPos wNeg [c3row] ["n"] = .ok ([], [], [c3row], make_correction_df) ∧
      ((∀ r ∈ ([] : List Row), r.chain ≠ none) ∧ (∀ r ∈ ([] : List Row), r.chain ≠ none) ∧
        ∀ r ∈ [c3row], r.chain ≠ none) :=
  ⟨by decide, import_tail_no_unlabeled wPos wNeg [c3row] ["n"] [] [] [c3row]
    make_correction_df (by decide)⟩

/-- Claim C2: the classifier takes four required parameters but every call in
`import_data` passes three, so on the opt-in path (reference table non-null)
`import_data` raises `TypeError` and never returns, while the opt-out path
returns the three tables and the scaffold normally. -/
theorem import_tail_classification_type_error :
    process_dataframe_param_count = 4 ∧ import_data_call_arg_count = 3 ∧
      import_data_call_arg_count ≠ process_dataframe_param_count ∧
      (∀ (pos neg : String → Bool) (df : List Row) (script rest : List String)
          (d : RtDict),
        ask_user_for_rt pos neg script = .ok (some d, rest) →
        import_tail pos neg df script = .error .typeError) ∧
      (∀ (pos neg : String → Bool) (df : List Row) (script rest : List String),
        ask_user_for_rt pos neg script = .ok (none, rest) →
        import_tail pos neg df script =
          .ok (linearity_std df, drift_std df,
            (unknown_pre df).filter (fun r => chainIn r unknown_whitelist),
            make_correction_df)) := by
  refine ⟨rfl, rfl, by decide, ?_, ?_⟩
  · intro pos neg df script rest d h
    rw [import_tail, h]
  · intro pos neg df script rest h
    rw [import_tail, h]

/-- The interactive script of an opt-in run: affirmative answer, then one
reference retention time and eight unused entries. -/
def wScriptY : List String := ["y", "500,none,none,none,none,none,none,none,none"]

/-- The reference table produced by `wScriptY`. -/
def wDictC16 : RtDict :=
  [("C16", some 500), ("C18", none), ("C20", none), ("C22", none), ("C24", none),
    ("C26", none), ("C28", none), ("C30", none), ("C32", none)]

/-- Claim C2 witness: a concrete opt-in session reaches the three-argument
call and fails with `TypeError`. -/
theorem import_tail_classification_type_error_witness :
    ask_user_for_rt wPos wNeg wScriptY = .ok (some wDictC16, []) ∧
      import_tail wPos wNeg [] wScriptY = .error .typeError :=
  ⟨by decide, import_tail_classification_type_error.2.2.2.1 wPos wNeg [] wScriptY []
    wDictC16 (by decide)⟩

/-- Candidate rows at retention times 500 and 500.01 in one acquisition
group. -/
def c1rowA : Row :=
  { id1 := "S1", time := "T", rt := 500, area := 1, dateTime := 0, chain := none }

def c1rowB : Row :=
  { id1 := "S1", time := "T", rt := mkRat 50001 100, area := 1, dateTime := 0, chain := none }

def c1df : List Row := [c1rowA, c1rowB]

/-- Claim C1 counterexample: with candidates at retention times 500 and 500.01
and reference 500, the minimum difference is 0, so the band
`diff <= 0 * 1.05` keeps only the exact match — a single candidate — and the
classifier auto-assigns it without consuming any interactive input (an empty
script still succeeds). -/
theorem near_tie_at_exact_match_counterexample :
    ¬ 2 ≤ (closest_rt c1df "T" 500).length ∧
      process_dataframe c1df (some wDictC16) "figs" [] =
        .ok [{ c1rowA with chain := some "C16" }] := by
  constructor
  · decide
  · decide

/-- Candidate rows at retention times 500.01 and 500.0105: minimum difference
0.01 and band bound 0.01 * 1.05 = 0.0105, a genuine near-tie. -/
def tieRowA : Row :=
  { id1 := "S1", time := "T", rt := mkRat 50001 100, area := 1, dateTime := 0, chain := none }

def tieRowB : Row :=
  { id1 := "S1", time := "T", rt := mkRat 1000021 2000, area := 1, dateTime := 0, chain := none }

def tieDf : List Row := [tieRowA, tieRowB]

/-- Claim C1 amended: at candidates `[R, R + 0.01]` the degenerate band keeps
only the row at exactly `R`, which is auto-assigned silently; the interactive
near-tie step is entered only when the minimum difference is positive, e.g.
at candidates `[R + 0.01, R + 0.0105]`, where an empty script blocks on the
prompt (`EOFError`) and the answer "1" labels the first candidate. -/
theorem near_tie_amended :
    closest_rt c1df "T" 500 = [c1rowA] ∧
      process_dataframe c1df (some wDictC16) "figs" [] =
        .ok [{ c1rowA with chain := some "C16" }] ∧
      (closest_rt tieDf "T" 500).length = 2 ∧
      process_dataframe tieDf (some wDictC16) "figs" [] = .error .eofError ∧
      process_dataframe tieDf (some wDictC16) "figs" ["1"] =
        .ok [{ tieRowA with chain := some "C16" }] := by
  refine ⟨by decide, by decide, by decide, by decide, by decide⟩

/-- Claim C9 counterexample: at a genuine near-tie the choice prompt performs
no validation — a non-numeric answer reaches `int(choice)` and raises
`ValueError` out of the prompt instead of re-prompting. -/
theorem near_tie_prompt_value_error :
    (closest_rt tieDf "T" 500).length = 2 ∧
      process_dataframe tieDf (some wDictC16) "figs" ["abc"] = .error .valueError := by
  constructor
  · decide
  · decide

/-- Claim C9 amended: an unrecognized yes/no answer and a reference list with
the wrong token count re-prompt (the loop restarts), but a non-numeric token
where a number is expected is not recoverable: a bad reference entry raises
`ValueError` at `float(...)`, and a non-numeric near-tie choice raises
`ValueError` at `int(...)`. -/
theorem prompt_validation_amended :
    (∀ (pos neg : String → Bool) (resp : String) (rest : List String),
      pos (pyLower (pyStrip resp)) = false → neg (pyLower (pyStrip resp)) = false →
      ask_user_for_rt pos neg (resp :: rest) = ask_user_for_rt pos neg rest) ∧
      (∀ (pos neg : String → Bool) (resp line : String) (rest : List String),
        pos (pyLower (pyStrip resp)) = true → (splitOnComma line).length ≠ 9 →
        ask_user_for_rt pos neg (resp :: line :: rest) = ask_user_for_rt pos neg rest) ∧
      ask_user_for_rt wPos wNeg ["y", "1,2,3,4,5,6,7,8,x"] = .error .valueError ∧
      process_dataframe tieDf (some wDictC16) "figs" ["abc"] = .error .valueError := by
  refine ⟨?_, ?_, by decide, by decide⟩
  · intro pos neg resp rest h1 h2
    conv_lhs => rw [ask_user_for_rt.eq_def]
    simp only [h1, h2, Bool.false_eq_true, if_false]
  · intro pos neg resp line rest h1 h2
    conv_lhs => rw [ask_user_for_rt.eq_def]
    simp only [h1, if_true]
    rw [if_neg]
    intro hlen
    rw [show chain_lengths.length = 9 from rfl] at hlen
    exact h2 hlen

/-- Claim C9 witness: concrete re-prompts for both recoverable input kinds. -/
theorem prompt_validation_amended_witness :
    (wPos (pyLower (pyStrip "maybe")) = false ∧ wNeg (pyLower (pyStrip "maybe")) = false ∧
      ask_user_for_rt wPos wNeg ["maybe", "n"] = ask_user_for_rt wPos wNeg ["n"]) ∧
      (wPos (pyLower (pyStrip "y")) = true ∧ (splitOnComma "1,2").length ≠ 9 ∧
        ask_user_for_rt wPos wNeg ["y", "1,2", "n"] = ask_user_for_rt wPos wNeg ["n"]) :=
  ⟨⟨by decide, by decide,
    prompt_validation_amended.1 wPos wNeg "maybe" ["n"] (by decide) (by decide)⟩,
    ⟨by decide, by decide,
      prompt_validation_amended.2.1 wPos wNeg "y" "1,2" ["n"] (by decide) (by decide)⟩⟩

/-- Two strictly sorted lists with the same members are equal. -/
theorem eq_of_sorted_lt_ext :
    ∀ (l1 l2 : List Int), l1.Pairwise (· < ·) → l2.Pairwise (· < ·) →
      (∀ a, a ∈ l1 ↔ a ∈ l2) → l1 = l2
  | [], [], _, _, _ => rfl
  | [], b :: l2, _, _, hm =>
    absurd ((hm b).mpr (List.mem_cons_self b l2)) (List.not_mem_nil b)
  | a :: l1, [], _, _, hm =>
    absurd ((hm a).mp (List.mem_cons_self a l1)) (List.not_mem_nil a)
  | a :: l1, b :: l2, h1, h2, hm => by
    rw [List.pairwise_cons] at h1 h2
    obtain ⟨ha, h1'⟩ := h1
    obtain ⟨hb, h2'⟩ := h2
    have hab : a = b := by
      have hma := (hm a).mp (List.mem_cons_self a l1)
      have hmb := (hm b).mpr (List.mem_cons_self b l2)
      rw [List.mem_cons] at hma hmb
      rcases hma with h | h
      · exact h
      · rcases hmb with h' | h'
        · exact h'.symm
        · have hba := hb a h
          have hab' := ha b h'
          omega
    subst hab
    have hm' : ∀ x, x ∈ l1 ↔ x ∈ l2 := by
      intro x
      constructor
      · intro hx
        have hmx := (hm x).mp (List.mem_cons_of_mem a hx)
        rw [List.mem_cons] at hmx
        rcases hmx with rfl | h
        · exact absurd (ha x hx) (lt_irrefl x)
        · exact h
      · intro hx
        have hmx := (hm x).mpr (List.mem_cons_of_mem a hx)
        rw [List.mem_cons] at hmx
        rcases hmx with rfl | h
        · exact absurd (hb x hx) (lt_irrefl x)
        · exact h
    rw [eq_of_sorted_lt_ext l1 l2 h1' h2' hm']

/-- Claim C6: when the drift rows carry exactly five distinct numeric
timestamps `t1 < ... < t5`, the two earliest are computed as the removal set
and the filtered drift output contains no row at `t1` or `t2` but every drift
row at `t3`, `t4` or `t5`. -/
theorem drift_two_earliest_excluded (df : List Row) (t1 t2 t3 t4 t5 : Int)
    (h12 : t1 < t2) (h23 : t2 < t3) (h34 : t3 < t4) (h45 : t4 < t5)
    (hall : ∀ r ∈ drift_std_pre df, r.dateTime ∈ [t1, t2, t3, t4, t5])
    (hocc : ∀ t ∈ [t1, t2, t3, t4, t5], ∃ r ∈ drift_std_pre df, r.dateTime = t) :
    (∀ r ∈ drift_std df, r.dateTime ≠ t1 ∧ r.dateTime ≠ t2) ∧
      ∀ r ∈ drift_std_pre df, (r.dateTime = t3 ∨ r.dateTime = t4 ∨ r.dateTime = t5) →
        r ∈ drift_std df := by
  have hperm : (drift_sorted df).Perm (drift_std_pre df) :=
    List.perm_insertionSort byTime (drift_std_pre df)
  have hsorted : (drift_sorted df).Pairwise byTime :=
    List.sorted_insertionSort byTime (drift_std_pre df)
  have hmapsorted : ((drift_sorted df).map Row.dateTime).Pairwise (· ≤ ·) :=
    List.pairwise_map.mpr hsorted
  have hu_le : (uniqueFirst ((drift_sorted df).map Row.dateTime)).Pairwise (· ≤ ·) :=
    List.Pairwise.sublist (uniqueFirst_sublist _) hmapsorted
  have hu_nd : (uniqueFirst ((drift_sorted df).map Row.dateTime)).Nodup :=
    nodup_uniqueFirst _
  have hu_lt : (uniqueFirst ((drift_sorted df).map Row.dateTime)).Pairwise (· < ·) :=
    (List.Pairwise.and hu_le hu_nd).imp (fun h => lt_of_le_of_ne h.1 h.2)
  have hu_mem : ∀ a : Int, a ∈ uniqueFirst ((drift_sorted df).map Row.dateTime) ↔
      a ∈ [t1, t2, t3, t4, t5] := by
    intro a
    rw [mem_uniqueFirst]
    constructor
    · intro ha
      rw [List.mem_map] at ha
      obtain ⟨r, hr, hra⟩ := ha
      have := hall r (hperm.mem_iff.mp hr)
      rw [hra] at this
      exact this
    · intro ha
      obtain ⟨r, hr, hrt⟩ := hocc a ha
      rw [List.mem_map]
      exact ⟨r, hperm.mem_iff.mpr hr, hrt⟩
  have htarget : ([t1, t2, t3, t4, t5] : List Int).Pairwise (· < ·) := by
    refine List.pairwise_cons.mpr ⟨?_, ?_⟩
    · intro x hx
      simp only [List.mem_cons, List.not_mem_nil, or_false] at hx
      rcases hx with rfl | rfl | rfl | rfl <;> omega
    refine List.pairwise_cons.mpr ⟨?_, ?_⟩
    · intro x hx
      simp only [List.mem_cons, List.not_mem_nil, or_false] at hx
      rcases hx with rfl | rfl | rfl <;> omega
    refine List.pairwise_cons.mpr ⟨?_, ?_⟩
    · intro x hx
      simp only [List.mem_cons, List.not_mem_nil, or_false] at hx
      rcases hx with rfl | rfl <;> omega
    refine List.pairwise_cons.mpr ⟨?_, ?_⟩
    · intro x hx
      simp only [List.mem_cons, List.not_mem_nil, or_false] at hx
      subst hx
      omega
    simp
  have hu_eq : uniqueFirst ((drift_sorted df).map Row.dateTime) = [t1, t2, t3, t4, t5] :=
    eq_of_sorted_lt_ext _ _ hu_lt htarget hu_mem
  have hrem : time_signatures_to_remove df = [t1, t2] := by
    rw [time_signatures_to_remove, hu_eq]
    rfl
  constructor
  · intro r hr
    rw [drift_std, List.mem_filter] at hr
    obtain ⟨hrs, hmask⟩ := hr
    rw [hrem] at hmask
    have hnot : r.dateTime ∉ [t1, t2] := by
      intro hmem
      have hc : List.contains [t1, t2] r.dateTime = true := by
        simpa [List.contains, List.elem_iff] using hmem
      rw [hc] at hmask
      exact absurd hmask (by decide)
    constructor
    · intro h; exact hnot (by rw [h]; exact List.mem_cons_self t1 [t2])
    · intro h; exact hnot (by rw [h]; exact List.mem_cons_of_mem t1 (List.mem_cons_self t2 []))
  · intro r hr hcase
    rw [drift_std, List.mem_filter]
    refine ⟨hperm.mem_iff.mpr hr, ?_⟩
    rw [hrem]
    have hnot : r.dateTime ∉ [t1, t2] := by
      intro hmem
      simp only [List.mem_cons, List.not_mem_nil, or_false] at hmem
      rcases hcase with h | h | h <;> rcases hmem with h' | h' <;> omega
    cases hc : List.contains [t1, t2] r.dateTime with
    | false => simp [hc]
    | true =>
      exfalso
      apply hnot
      simpa [List.contains, List.elem_iff] using hc

/-- Five drift rows at five distinct timestamps. -/
def c6df : List Row :=
  [⟨"C18 C24 drift", "T1", 1, 1, 1, some "C18"⟩,
    ⟨"C18 C24 drift", "T2", 2, 1, 2, some "C24"⟩,
    ⟨"C18 C24 drift", "T3", 3, 1, 3, some "C18"⟩,
    ⟨"C18 C24 drift", "T4", 4, 1, 4, some "C24"⟩,
    ⟨"C18 C24 drift", "T5", 5, 1, 5, some "C18"⟩]

/-- Claim C6 witness: the exclusion theorem evaluated on five concrete drift
rows with timestamps 1 < 2 < 3 < 4 < 5. -/
theorem drift_two_earliest_excluded_witness :
    (∀ r ∈ drift_std c6df, r.dateTime ≠ 1 ∧ r.dateTime ≠ 2) ∧
      ∀ r ∈ drift_std_pre c6df, (r.dateTime = 3 ∨ r.dateTime = 4 ∨ r.dateTime = 5) →
        r ∈ drift_std c6df :=
  drift_two_earliest_excluded c6df 1 2 3 4 5 (by decide) (by decide) (by decide)
    (by decide) (by decide) (by decide)

/-
Infrastructure for the idempotence claim: the candidate selection of
`process_dataframe` reads only the `Time` and `Rt` columns, which no chain
assignment modifies, so a whole pass acts on the table as a pointwise map.
`sig` is the part of a row the selection can see.
-/

/-- The selection-relevant part of a row. -/
def sig (r : Row) : String × Rat := (r.time, r.rt)

theorem sig_assignFun (time_val : String) (correct_rt : Rat) (chain : String) (r : Row) :
    sig (assignFun time_val correct_rt chain r) = sig r := by
  rw [assignFun]
  split <;> rfl

theorem map_sig_assignChain (df : List Row) (time_val : String) (correct_rt : Rat)
    (chain : String) : (assignChain df time_val correct_rt chain).map sig = df.map sig := by
  rw [assignChain, List.map_map]
  have : sig ∘ assignFun time_val correct_rt chain = sig :=
    funext (sig_assignFun time_val correct_rt chain)
  rw [this]

/-- Two lists with the same `f`-image have the same `f`-image after filtering
by any predicate that reads only the `f`-image. -/
theorem map_filter_congr {α β : Type} (f : α → β) (q : β → Bool) :
    ∀ {l l' : List α}, l.map f = l'.map f →
      (l.filter (fun a => q (f a))).map f = (l'.filter (fun a => q (f a))).map f := by
  intro l
  induction l with
  | nil =>
    intro l' h
    cases l' with
    | nil => rfl
    | cons b l' => simp at h
  | cons a l ih =>
    intro l' h
    cases l' with
    | nil => simp at h
    | cons b l'' =>
      simp only [List.map_cons, List.cons.injEq] at h
      obtain ⟨hab, ht⟩ := h
      by_cases hq : q (f a) = true
      · have hqb : q (f b) = true := by rw [← hab]; exact hq
        simp only [List.filter_cons, hq, hqb, if_true, List.map_cons, hab, ih ht]
      · have hqa : q (f a) = false := by simpa using hq
        have hqb : q (f b) = false := by rw [← hab]; exact hqa
        simp only [List.filter_cons, hqa, hqb, Bool.false_eq_true, if_false]
        exact ih ht

theorem map_sig_groupRows {df df' : List Row} (time_val : String)
    (h : df.map sig = df'.map sig) :
    (groupRows df time_val).map sig = (groupRows df' time_val).map sig := by
  rw [groupRows, groupRows]
  exact map_filter_congr sig (fun s => decide (s.1 = time_val)) h

theorem map_rtDiff_eq_of_map_sig {g1 g2 : List Row} (target_rt : Rat)
    (h : g1.map sig = g2.map sig) :
    g1.map (rtDiff target_rt) = g2.map (rtDiff target_rt) := by
  have e1 : g1.map (rtDiff target_rt) =
      (g1.map sig).map (fun s => ratAbs (ratSub s.2 target_rt)) := by
    rw [List.map_map]; rfl
  have e2 : g2.map (rtDiff target_rt) =
      (g2.map sig).map (fun s => ratAbs (ratSub s.2 target_rt)) := by
    rw [List.map_map]; rfl
  rw [e1, e2, h]

theorem closest_rt_map_sig {df df' : List Row} (time_val : String) (target_rt : Rat)
    (h : df.map sig = df'.map sig) :
    (closest_rt df time_val target_rt).map sig =
      (closest_rt df' time_val target_rt).map sig := by
  have hg := map_sig_groupRows time_val h
  have hd := map_rtDiff_eq_of_map_sig target_rt hg
  rw [closest_rt, closest_rt, hd]
  cases hmin : listMin ((groupRows df' time_val).map (rtDiff target_rt)) with
  | none => rfl
  | some m =>
    exact map_filter_congr sig
      (fun s => decide (ratAbs (ratSub s.2 target_rt) ≤
        ratMul m (ratAdd 1 closest_rt_threshold))) hg

theorem closest_rt_length_congr {df df' : List Row} (time_val : String) (target_rt : Rat)
    (h : df.map sig = df'.map sig) :
    (closest_rt df time_val target_rt).length =
      (closest_rt df' time_val target_rt).length := by
  have := congrArg List.length (closest_rt_map_sig time_val target_rt h)
  simpa using this

theorem closest_rt_singleton_congr {df df' : List Row} {time_val : String}
    {target_rt : Rat} {w : Row} (h : df.map sig = df'.map sig)
    (hw : closest_rt df time_val target_rt = [w]) :
    ∃ w', closest_rt df' time_val target_rt = [w'] ∧ sig w' = sig w := by
  have hmap := closest_rt_map_sig time_val target_rt h
  rw [hw] at hmap
  cases hcr : closest_rt df' time_val target_rt with
  | nil => rw [hcr] at hmap; simp at hmap
  | cons w' rest =>
    rw [hcr] at hmap
    cases rest with
    | nil =>
      simp only [List.map_cons, List.map_nil, List.cons.injEq, and_true] at hmap
      exact ⟨w', rfl, hmap.symm⟩
    | cons x xs => simp at hmap

/-- The retention time the pass assigns for one reference chain in one group:
`some` of the unique candidate's `Rt`, `none` when the candidate list is empty
(no-op) — the near-tie case is excluded separately. -/
def chainSel (X₀ : List Row) (time_val : String) (target_rt : Rat) : Option Rat :=
  match closest_rt X₀ time_val target_rt with
  | [w] => some w.rt
  | _ => none

/-- Pointwise effect of one reference-chain step on the prompt-free path. -/
def chainStepF (X₀ : List Row) (time_val : String) :
    String × Option Rat → Row → Row
  | (_, none), r => r
  | (chain, some target_rt), r =>
    match chainSel X₀ time_val target_rt with
    | none => r
    | some rtw => assignFun time_val rtw chain r

/-- Pointwise effect of the whole reference-table loop for one group. -/
def runChainsF (X₀ : List Row) (time_val : String) : RtDict → Row → Row
  | [], r => r
  | item :: rest, r => runChainsF X₀ time_val rest (chainStepF X₀ time_val item r)

/-- Pointwise effect of the whole pass. -/
def runTimesF (X₀ : List Row) (rt_dict : RtDict) : List String → Row → Row
  | [], r => r
  | t :: ts, r => runTimesF X₀ rt_dict ts (runChainsF X₀ t rt_dict r)

theorem sig_chainStepF (X₀ : List Row) (time_val : String) (item : String × Option Rat)
    (r : Row) : sig (chainStepF X₀ time_val item r) = sig r := by
  obtain ⟨c, rt⟩ := item
  cases rt with
  | none => rfl
  | some g =>
    rw [chainStepF]
    cases chainSel X₀ time_val g with
    | none => rfl
    | some rtw => exact sig_assignFun time_val rtw c r

theorem sig_runChainsF (X₀ : List Row) (time_val : String) (dict : RtDict) (r : Row) :
    sig (runChainsF X₀ time_val dict r) = sig r := by
  induction dict generalizing r with
  | nil => rfl
  | cons item rest ih =>
    rw [runChainsF]
    rw [ih (chainStepF X₀ time_val item r)]
    exact sig_chainStepF X₀ time_val item r

theorem sig_runTimesF (X₀ : List Row) (dict : RtDict) (times : List String) (r : Row) :
    sig (runTimesF X₀ dict times r) = sig r := by
  induction times generalizing r with
  | nil => rfl
  | cons t ts ih =>
    rw [runTimesF]
    rw [ih (runChainsF X₀ t dict r)]
    exact sig_runChainsF X₀ t dict r

theorem map_sig_map_runChainsF (X₀ : List Row) (time_val : String) (dict : RtDict)
    (X : List Row) : (X.map (runChainsF X₀ time_val dict)).map sig = X.map sig := by
  rw [List.map_map]
  have : sig ∘ runChainsF X₀ time_val dict = sig :=
    funext (sig_runChainsF X₀ time_val dict)
  rw [this]

/-- Rewriting a map by a pointwise-equal function. -/
theorem list_map_congr {α β : Type} {f h : α → β} (hfh : ∀ a, f a = h a)
    (l : List α) : l.map f = l.map h := by
  rw [funext hfh]

theorem map_pointwise_id {α : Type} {f : α → α} (hf : ∀ a, f a = a)
    (l : List α) : l.map f = l := by
  rw [funext hf]
  exact List.map_id' l

theorem map_runChainsF_nil (X₀ : List Row) (time_val : String) (X : List Row) :
    X.map (runChainsF X₀ time_val []) = X :=
  map_pointwise_id (fun _ => rfl) X

theorem map_runChainsF_cons (X₀ : List Row) (time_val : String)
    (item : String × Option Rat) (rest : RtDict) (X : List Row) :
    X.map (runChainsF X₀ time_val (item :: rest)) =
      (X.map (chainStepF X₀ time_val item)).map (runChainsF X₀ time_val rest) := by
  rw [List.map_map]
  rfl

/-- No reference chain meets a near-tie in this group (the prompt-free
side condition of the pass). -/
def NoTie (X₀ : List Row) (time_val : String) (dict : RtDict) : Prop :=
  ∀ p ∈ dict, ∀ g : Rat, p.2 = some g → (closest_rt X₀ time_val g).length ≤ 1

theorem noTie_cons {X₀ : List Row} {time_val : String} {item : String × Option Rat}
    {rest : RtDict} (h : NoTie X₀ time_val (item :: rest)) :
    NoTie X₀ time_val rest :=
  fun p hp => h p (List.mem_cons_of_mem item hp)

/-- A successful prompt-free group run is the pointwise fold, consumes no
input, and certifies the absence of near-ties (selection read against any
signature-equal reference table). -/
theorem runChains_ok {X₀ : List Row} {time_val : String} {dict : RtDict}
    {X X' : List Row} {s' : List String} (hsig : X.map sig = X₀.map sig)
    (h : runChains time_val dict X [] = .ok (X', s')) :
    X' = X.map (runChainsF X₀ time_val dict) ∧ s' = [] ∧ NoTie X₀ time_val dict := by
  induction dict generalizing X with
  | nil =>
    rw [runChains] at h
    simp only [Except.ok.injEq, Prod.mk.injEq] at h
    obtain ⟨h1, h2⟩ := h
    refine ⟨?_, h2.symm, ?_⟩
    · rw [← h1, map_runChainsF_nil]
    · intro p hp
      cases hp
  | cons item rest ih =>
    obtain ⟨c, rt⟩ := item
    rw [runChains] at h
    cases rt with
    | none =>
      simp only [stepChain] at h
      obtain ⟨h1, h2, h3⟩ := ih hsig h
      refine ⟨?_, h2, ?_⟩
      · rw [h1, map_runChainsF_cons]
        have hstep : ∀ r, chainStepF X₀ time_val (c, none) r = r := fun _ => rfl
        rw [map_pointwise_id hstep]
      · intro p hp g' hg'
        rcases List.mem_cons.mp hp with rfl | hp'
        · exact absurd hg' (by simp)
        · exact h3 p hp' g' hg'
    | some g =>
      cases hcr : closest_rt X time_val g with
      | nil =>
        simp only [stepChain, hcr] at h
        obtain ⟨h1, h2, h3⟩ := ih hsig h
        have hcr0 : closest_rt X₀ time_val g = [] := by
          have hm := closest_rt_map_sig time_val g hsig
          rw [hcr] at hm
          cases h0 : closest_rt X₀ time_val g with
          | nil => rfl
          | cons x xs => rw [h0] at hm; simp at hm
        refine ⟨?_, h2, ?_⟩
        · rw [h1, map_runChainsF_cons]
          have hstep : ∀ r, chainStepF X₀ time_val (c, some g) r = r := by
            intro r
            rw [chainStepF, show chainSel X₀ time_val g = none from by rw [chainSel, hcr0]]
          rw [map_pointwise_id hstep]
        · intro p hp g' hg'
          rcases List.mem_cons.mp hp with rfl | hp'
          · have hgg : g = g' := by injection hg'
            rw [← hgg, hcr0]
            simp
          · exact h3 p hp' g' hg'
      | cons w ws =>
        cases ws with
        | nil =>
          simp only [stepChain, hcr] at h
          have hsig2 : (assignChain X time_val w.rt c).map sig = X₀.map sig := by
            rw [map_sig_assignChain]
            exact hsig
          obtain ⟨h1, h2, h3⟩ := ih hsig2 h
          obtain ⟨w', hw', hsw⟩ := closest_rt_singleton_congr hsig hcr
          have hwrt : w'.rt = w.rt := congrArg Prod.snd hsw
          have hsel : chainSel X₀ time_val g = some w.rt := by
            rw [chainSel, hw']
            show some w'.rt = some w.rt
            rw [hwrt]
          refine ⟨?_, h2, ?_⟩
          · rw [h1, map_runChainsF_cons]
            have hstep : ∀ r, chainStepF X₀ time_val (c, some g) r =
                assignFun time_val w.rt c r := by
              intro r
              rw [chainStepF, hsel]
            rw [list_map_congr hstep]
            rfl
          · intro p hp g' hg'
            rcases List.mem_cons.mp hp with rfl | hp'
            · have hgg : g = g' := by injection hg'
              rw [← hgg, hw']
              simp
            · exact h3 p hp' g' hg'
        | cons w2 ws2 =>
          simp only [stepChain, hcr] at h
          exact absurd h (by simp)

/-- Conversely, absence of near-ties guarantees that the group run succeeds
on an empty script and equals the pointwise fold. -/
theorem runChains_complete {X₀ : List Row} {time_val : String} {dict : RtDict}
    {X : List Row} (hsig : X.map sig = X₀.map sig)
    (hnt : NoTie X₀ time_val dict) :
    runChains time_val dict X [] =
      .ok (X.map (runChainsF X₀ time_val dict), []) := by
  induction dict generalizing X with
  | nil =>
    rw [runChains, map_runChainsF_nil]
  | cons item rest ih =>
    obtain ⟨c, rt⟩ := item
    rw [runChains]
    cases rt with
    | none =>
      simp only [stepChain]
      rw [ih hsig (noTie_cons hnt)]
      rw [map_runChainsF_cons]
      have hstep : ∀ r, chainStepF X₀ time_val (c, none) r = r := fun _ => rfl
      rw [map_pointwise_id hstep]
    | some g =>
      cases hcr : closest_rt X time_val g with
      | nil =>
        simp only [stepChain, hcr]
        rw [ih hsig (noTie_cons hnt)]
        have hcr0 : closest_rt X₀ time_val g = [] := by
          have hm := closest_rt_map_sig time_val g hsig
          rw [hcr] at hm
          cases h0 : closest_rt X₀ time_val g with
          | nil => rfl
          | cons x xs => rw [h0] at hm; simp at hm
        rw [map_runChainsF_cons]
        have hstep : ∀ r, chainStepF X₀ time_val (c, some g) r = r := by
          intro r
          rw [chainStepF, show chainSel X₀ time_val g = none from by rw [chainSel, hcr0]]
        rw [map_pointwise_id hstep]
      | cons w ws =>
        cases ws with
        | nil =>
          simp only [stepChain, hcr]
          have hsig2 : (assignChain X time_val w.rt c).map sig = X₀.map sig := by
            rw [map_sig_assignChain]
            exact hsig
          rw [ih hsig2 (noTie_cons hnt)]
          obtain ⟨w', hw', hsw⟩ := closest_rt_singleton_congr hsig hcr
          have hwrt : w'.rt = w.rt := congrArg Prod.snd hsw
          have hsel : chainSel X₀ time_val g = some w.rt := by
            rw [chainSel, hw']
            show some w'.rt = some w.rt
            rw [hwrt]
          rw [map_runChainsF_cons]
          have hstep : ∀ r, chainStepF X₀ time_val (c, some g) r =
              assignFun time_val w.rt c r := by
            intro r
            rw [chainStepF, hsel]
          rw [list_map_congr hstep]
          rfl
        | cons w2 ws2 =>
          exfalso
          have hle := hnt (c, some g) (List.mem_cons_self _ _) g rfl
          have hlen := closest_rt_length_congr time_val g hsig
          rw [hcr] at hlen
          simp at hlen
          omega

theorem map_runTimesF_nil (X₀ : List Row) (dict : RtDict) (X : List Row) :
    X.map (runTimesF X₀ dict []) = X :=
  map_pointwise_id (fun _ => rfl) X

theorem map_runTimesF_cons (X₀ : List Row) (dict : RtDict) (t : String)
    (ts : List String) (X : List Row) :
    X.map (runTimesF X₀ dict (t :: ts)) =
      (X.map (runChainsF X₀ t dict)).map (runTimesF X₀ dict ts) := by
  rw [List.map_map]
  rfl

/-- A successful prompt-free pass is the pointwise fold over all groups and
certifies absence of near-ties in every processed group. -/
theorem runTimes_ok {X₀ : List Row} {dict : RtDict} {times : List String}
    {X X' : List Row} {s' : List String} (hsig : X.map sig = X₀.map sig)
    (h : runTimes dict times X [] = .ok (X', s')) :
    X' = X.map (runTimesF X₀ dict times) ∧ s' = [] ∧
      ∀ t ∈ times, NoTie X₀ t dict := by
  induction times generalizing X with
  | nil =>
    rw [runTimes] at h
    simp only [Except.ok.injEq, Prod.mk.injEq] at h
    obtain ⟨h1, h2⟩ := h
    refine ⟨?_, h2.symm, ?_⟩
    · rw [← h1, map_runTimesF_nil]
    · intro t ht
      cases ht
  | cons t ts ih =>
    rw [runTimes] at h
    cases hrc : runChains t dict X [] with
    | error e => rw [hrc] at h; exact absurd h (by simp)
    | ok p =>
      obtain ⟨X1, s1⟩ := p
      rw [hrc] at h
      obtain ⟨hX1, hs1, hnt⟩ := runChains_ok hsig hrc
      subst hs1
      have hsig1 : X1.map sig = X₀.map sig := by
        rw [hX1, map_sig_map_runChainsF]
        exact hsig
      obtain ⟨h1, h2, h3⟩ := ih hsig1 h
      refine ⟨?_, h2, ?_⟩
      · rw [h1, hX1, map_runTimesF_cons]
      · intro t' ht'
        rcases List.mem_cons.mp ht' with rfl | ht''
        · exact hnt
        · exact h3 t' ht''

/-- Conversely, absence of near-ties in every group makes the pass succeed on
an empty script. -/
theorem runTimes_complete {X₀ : List Row} {dict : RtDict} {times : List String}
    {X : List Row} (hsig : X.map sig = X₀.map sig)
    (hnt : ∀ t ∈ times, NoTie X₀ t dict) :
    runTimes dict times X [] = .ok (X.map (runTimesF X₀ dict times), []) := by
  induction times generalizing X with
  | nil =>
    rw [runTimes, map_runTimesF_nil]
  | cons t ts ih =>
    rw [runTimes]
    rw [runChains_complete hsig (hnt t (List.mem_cons_self t ts))]
    have hsig1 : (X.map (runChainsF X₀ t dict)).map sig = X₀.map sig := by
      rw [map_sig_map_runChainsF]
      exact hsig
    show runTimes dict ts (X.map (runChainsF X₀ t dict)) [] =
      .ok (X.map (runTimesF X₀ dict (t :: ts)), [])
    rw [ih hsig1 (fun t' ht' => hnt t' (List.mem_cons_of_mem t ht'))]
    rw [map_runTimesF_cons]

theorem time_runChainsF (X₀ : List Row) (time_val : String) (dict : RtDict) (r : Row) :
    (runChainsF X₀ time_val dict r).time = r.time :=
  congrArg Prod.fst (sig_runChainsF X₀ time_val dict r)

/-- A group step does not touch rows of other groups. -/
theorem runChainsF_of_time_ne {X₀ : List Row} {time_val : String} {dict : RtDict}
    {r : Row} (h : r.time ≠ time_val) : runChainsF X₀ time_val dict r = r := by
  induction dict with
  | nil => rfl
  | cons item rest ih =>
    rw [runChainsF]
    have hstep : chainStepF X₀ time_val item r = r := by
      obtain ⟨c, rt⟩ := item
      cases rt with
      | none => rfl
      | some g =>
        rw [chainStepF]
        cases chainSel X₀ time_val g with
        | none => rfl
        | some rtw =>
          simp only [assignFun]
          rw [if_neg]
          intro hc
          exact h hc.1
    rw [hstep, ih]

theorem runTimesF_of_not_mem {X₀ : List Row} {dict : RtDict} {times : List String}
    {r : Row} (h : r.time ∉ times) : runTimesF X₀ dict times r = r := by
  induction times with
  | nil => rfl
  | cons t ts ih =>
    rw [runTimesF]
    have ht : r.time ≠ t := fun hh => h (hh ▸ List.mem_cons_self t ts)
    rw [runChainsF_of_time_ne ht]
    exact ih (fun hh => h (List.mem_cons_of_mem t hh))

/-- On a duplicate-free group list, the whole pass acts on a row exactly as
the step for the row's own group. -/
theorem runTimesF_eq_runChainsF {X₀ : List Row} {dict : RtDict} {times : List String}
    {r : Row} (hnd : times.Nodup) (hmem : r.time ∈ times) :
    runTimesF X₀ dict times r = runChainsF X₀ r.time dict r := by
  induction times with
  | nil => cases hmem
  | cons t ts ih =>
    rw [runTimesF]
    by_cases ht : r.time = t
    · subst ht
      have hnin : r.time ∉ ts := (List.nodup_cons.mp hnd).1
      have htt : (runChainsF X₀ r.time dict r).time ∉ ts := by
        rw [time_runChainsF]
        exact hnin
      exact runTimesF_of_not_mem htt
    · have hmem' : r.time ∈ ts := by
        rcases List.mem_cons.mp hmem with h | h
        · exact absurd h ht
        · exact h
      rw [runChainsF_of_time_ne ht]
      exact ih (List.nodup_cons.mp hnd).2 hmem'

theorem chain_chainStepF (X₀ : List Row) (time_val : String)
    (item : String × Option Rat) (r : Row) :
    (chainStepF X₀ time_val item r).chain = r.chain ∨
      (chainStepF X₀ time_val item r).chain = some item.1 := by
  obtain ⟨c, rt⟩ := item
  cases rt with
  | none => left; rfl
  | some g =>
    rw [chainStepF]
    cases chainSel X₀ time_val g with
    | none => left; rfl
    | some rtw =>
      simp only [assignFun]
      split
      · right; rfl
      · left; rfl

/-- The group step either keeps a row's chain or sets it to one of the
reference-table keys. -/
theorem chain_runChainsF_mem (X₀ : List Row) (time_val : String) (dict : RtDict) :
    ∀ r : Row, (runChainsF X₀ time_val dict r).chain = r.chain ∨
      ∃ c ∈ dict.map Prod.fst, (runChainsF X₀ time_val dict r).chain = some c := by
  induction dict with
  | nil => intro r; left; rfl
  | cons item rest ih =>
    intro r
    rw [runChainsF]
    rcases ih (chainStepF X₀ time_val item r) with h | ⟨c, hc, h⟩
    · rw [h]
      rcases chain_chainStepF X₀ time_val item r with h2 | h2
      · left; exact h2
      · right
        exact ⟨item.1, by rw [List.map_cons]; exact List.mem_cons_self _ _, h2⟩
    · right
      exact ⟨c, by rw [List.map_cons]; exact List.mem_cons_of_mem _ hc, h⟩

/-- A row selected by at least one reference chain of its own group ends the
group step labeled with some reference-table key. -/
theorem chain_runChainsF_fired (X₀ : List Row) (time_val : String) (dict : RtDict) :
    ∀ r : Row, r.time = time_val →
      (∃ p ∈ dict, ∃ g : Rat, p.2 = some g ∧ chainSel X₀ time_val g = some r.rt) →
      ∃ c ∈ dict.map Prod.fst, (runChainsF X₀ time_val dict r).chain = some c := by
  induction dict with
  | nil =>
    rintro r _ ⟨p, hp, _⟩
    cases hp
  | cons item rest ih =>
    rintro r htime ⟨p, hp, g, hpg, hsel⟩
    rw [runChainsF]
    rcases List.mem_cons.mp hp with heq | hp'
    · obtain ⟨c, rt⟩ := item
      rw [heq] at hpg
      have hrtg : rt = some g := hpg
      subst hrtg
      have hstep : chainStepF X₀ time_val (c, some g) r = { r with chain := some c } := by
        rw [chainStepF, hsel]
        simp only [assignFun]
        have hcond : r.time = time_val ∧ True := ⟨htime, trivial⟩
        rw [if_pos hcond]
      rcases chain_runChainsF_mem X₀ time_val rest
          (chainStepF X₀ time_val (c, some g) r) with h | ⟨c', hc', h⟩
      · refine ⟨c, ?_, ?_⟩
        · rw [List.map_cons]
          exact List.mem_cons_self _ _
        · rw [h, hstep]
      · exact ⟨c', by rw [List.map_cons]; exact List.mem_cons_of_mem _ hc', h⟩
    · have hsig' := sig_chainStepF X₀ time_val item r
      have htime' : (chainStepF X₀ time_val item r).time = r.time :=
        congrArg Prod.fst hsig'
      have hrt' : (chainStepF X₀ time_val item r).rt = r.rt := congrArg Prod.snd hsig'
      obtain ⟨c, hc, h⟩ := ih (chainStepF X₀ time_val item r)
        (by rw [htime']; exact htime) ⟨p, hp', g, hpg, by rw [hrt']; exact hsel⟩
      exact ⟨c, by rw [List.map_cons]; exact List.mem_cons_of_mem _ hc, h⟩

theorem list_map_congr_mem {α β : Type} {f h : α → β} :
    ∀ l : List α, (∀ a ∈ l, f a = h a) → l.map f = l.map h := by
  intro l
  induction l with
  | nil => intro _; rfl
  | cons a l ih =>
    intro hfh
    rw [List.map_cons, List.map_cons, hfh a (List.mem_cons_self a l),
      ih (fun b hb => hfh b (List.mem_cons_of_mem a hb))]

theorem stripChain_idem (r : Row) : stripChain (stripChain r) = stripChain r := rfl

theorem sig_stripChain (r : Row) : sig (stripChain r) = sig r := rfl

theorem stripChain_chainStepF (X₀ : List Row) (time_val : String)
    (item : String × Option Rat) (r : Row) :
    stripChain (chainStepF X₀ time_val item r) = stripChain r := by
  obtain ⟨c, rt⟩ := item
  cases rt with
  | none => rfl
  | some g =>
    rw [chainStepF]
    cases chainSel X₀ time_val g with
    | none => rfl
    | some rtw =>
      simp only [assignFun]
      split <;> rfl

theorem stripChain_runChainsF (X₀ : List Row) (time_val : String) (dict : RtDict) :
    ∀ r : Row, stripChain (runChainsF X₀ time_val dict r) = stripChain r := by
  induction dict with
  | nil => intro r; rfl
  | cons item rest ih =>
    intro r
    rw [runChainsF, ih, stripChain_chainStepF]

theorem stripChain_runTimesF (X₀ : List Row) (dict : RtDict) (times : List String) :
    ∀ r : Row, stripChain (runTimesF X₀ dict times r) = stripChain r := by
  induction times with
  | nil => intro r; rfl
  | cons t ts ih =>
    intro r
    rw [runTimesF, ih, stripChain_runChainsF]

theorem listMin_cons_isSome (a : Rat) (l : List Rat) :
    ∃ m, listMin (a :: l) = some m := by
  rw [listMin]
  cases listMin l with
  | none => exact ⟨a, rfl⟩
  | some m => exact ⟨ratMin a m, rfl⟩

/-- The minimum difference lies inside its own tolerance band. -/
theorem le_band_bound {m : Rat} (hm : 0 ≤ m) :
    m ≤ ratMul m (ratAdd 1 closest_rt_threshold) := by
  rw [ratMul_eq, ratAdd_eq]
  have hθ : (0 : Rat) ≤ closest_rt_threshold := by decide
  nlinarith

/-- An empty candidate list arises only from an empty acquisition group. -/
theorem closest_rt_nil_group {X : List Row} {time_val : String} {target_rt : Rat}
    (h : closest_rt X time_val target_rt = []) : groupRows X time_val = [] := by
  cases hmin : listMin ((groupRows X time_val).map (rtDiff target_rt)) with
  | none =>
    cases hg : groupRows X time_val with
    | nil => rfl
    | cons a l =>
      rw [hg, List.map_cons] at hmin
      obtain ⟨m, hm⟩ := listMin_cons_isSome (rtDiff target_rt a) (l.map (rtDiff target_rt))
      rw [hm] at hmin
      cases hmin
  | some m =>
    exfalso
    rw [closest_rt, hmin] at h
    have h' : (groupRows X time_val).filter (inBand m target_rt) = [] := h
    have hmem := listMin_mem hmin
    rw [List.mem_map] at hmem
    obtain ⟨rm, hrmg, hrm⟩ := hmem
    have hm0 : 0 ≤ m := by
      rw [← hrm, rtDiff, ratAbs_eq]
      exact abs_nonneg _
    have hrmband : rm ∈ (groupRows X time_val).filter (inBand m target_rt) := by
      rw [List.mem_filter]
      refine ⟨hrmg, ?_⟩
      simp only [inBand, decide_eq_true_eq]
      rw [hrm]
      exact le_band_bound hm0
    rw [h'] at hrmband
    cases hrmband

/-- Band stability: removing rows other than the unique candidate from the
table changes neither the minimum difference nor the selected candidate. -/
theorem closest_rt_stable {Y X₀ : List Row} {time_val : String} {target_rt : Rat}
    {w : Row} (hsub : Y.Sublist X₀)
    (hw : closest_rt X₀ time_val target_rt = [w]) (hwY : w ∈ Y) :
    closest_rt Y time_val target_rt = [w] := by
  have hgsub : (groupRows Y time_val).Sublist (groupRows X₀ time_val) :=
    List.Sublist.filter _ hsub
  cases hmin : listMin ((groupRows X₀ time_val).map (rtDiff target_rt)) with
  | none =>
    rw [closest_rt, hmin] at hw
    exact absurd hw (by simp)
  | some m =>
    rw [closest_rt, hmin] at hw
    have hw' : (groupRows X₀ time_val).filter (inBand m target_rt) = [w] := hw
    have hmem := listMin_mem hmin
    rw [List.mem_map] at hmem
    obtain ⟨rm, hrmg, hrm⟩ := hmem
    have hm0 : 0 ≤ m := by
      rw [← hrm, rtDiff, ratAbs_eq]
      exact abs_nonneg _
    have hband : m ≤ ratMul m (ratAdd 1 closest_rt_threshold) := le_band_bound hm0
    have hwX : w ∈ (groupRows X₀ time_val).filter (inBand m target_rt) := by
      rw [hw']
      exact List.mem_cons_self w []
    have hwgX : w ∈ groupRows X₀ time_val := (List.mem_filter.mp hwX).1
    have hwdm : rtDiff target_rt w = m := by
      have hrmband : rm ∈ (groupRows X₀ time_val).filter (inBand m target_rt) := by
        rw [List.mem_filter]
        refine ⟨hrmg, ?_⟩
        simp only [inBand, decide_eq_true_eq]
        rw [hrm]
        exact hband
      rw [hw'] at hrmband
      have hrw : rm = w := by simpa using hrmband
      rw [← hrw, hrm]
    have hwgY : w ∈ groupRows Y time_val := by
      rw [groupRows, List.mem_filter]
      rw [groupRows, List.mem_filter] at hwgX
      exact ⟨hwY, hwgX.2⟩
    have hminY : listMin ((groupRows Y time_val).map (rtDiff target_rt)) = some m := by
      apply listMin_eq_some
      · rw [List.mem_map]
        exact ⟨w, hwgY, hwdm⟩
      · intro x hx
        rw [List.mem_map] at hx
        obtain ⟨rx, hrx, hrxx⟩ := hx
        have hrxX : rx ∈ groupRows X₀ time_val := hgsub.subset hrx
        exact listMin_le hmin x (by rw [List.mem_map]; exact ⟨rx, hrxX, hrxx⟩)
    rw [closest_rt, hminY]
    show (groupRows Y time_val).filter (inBand m target_rt) = [w]
    have hsubf : ((groupRows Y time_val).filter (inBand m target_rt)).Sublist
        ((groupRows X₀ time_val).filter (inBand m target_rt)) :=
      List.Sublist.filter _ hgsub
    rw [hw'] at hsubf
    have hwYb : w ∈ (groupRows Y time_val).filter (inBand m target_rt) := by
      rw [List.mem_filter]
      refine ⟨hwgY, ?_⟩
      simp only [inBand, decide_eq_true_eq]
      rw [hwdm]
      exact hband
    cases hL : (groupRows Y time_val).filter (inBand m target_rt) with
    | nil =>
      rw [hL] at hwYb
      cases hwYb
    | cons x xs =>
      rw [hL] at hsubf hwYb
      cases xs with
      | nil =>
        have hxw : x ∈ [w] := hsubf.subset (List.mem_cons_self x [])
        simp only [List.mem_singleton] at hxw
        rw [hxw]
      | cons y ys =>
        exfalso
        have hlen := hsubf.length_le
        simp at hlen

theorem chainSel_stable {Y X₀ : List Row} {time_val : String} {target_rt : Rat}
    {w : Row} (hsub : Y.Sublist X₀)
    (hw : closest_rt X₀ time_val target_rt = [w]) (hwY : w ∈ Y) :
    chainSel Y time_val target_rt = chainSel X₀ time_val target_rt := by
  rw [chainSel, chainSel, hw, closest_rt_stable hsub hw hwY]

theorem runChainsF_congr {Y X₀ : List Row} {time_val : String} :
    ∀ dict : RtDict,
      (∀ p ∈ dict, ∀ g : Rat, p.2 = some g →
        chainSel Y time_val g = chainSel X₀ time_val g) →
      ∀ r : Row, runChainsF Y time_val dict r = runChainsF X₀ time_val dict r := by
  intro dict
  induction dict with
  | nil => intro _ r; rfl
  | cons item rest ih =>
    intro hsel r
    rw [runChainsF, runChainsF]
    have hstep : chainStepF Y time_val item r = chainStepF X₀ time_val item r := by
      obtain ⟨c, rt⟩ := item
      cases rt with
      | none => rfl
      | some g =>
        rw [chainStepF, chainStepF, hsel (c, some g) (List.mem_cons_self _ _) g rfl]
    rw [hstep]
    exact ih (fun p hp => hsel p (List.mem_cons_of_mem _ hp)) _

/-- Unfolding of `process_dataframe` on a present reference table. -/
theorem process_dataframe_some (df : List Row) (dict : RtDict) (folder_path : String)
    (script : List String) :
    process_dataframe df (some dict) folder_path script =
      match runTimes dict (uniqueFirst ((df.map stripChain).map Row.time))
          (df.map stripChain) script with
      | .error e => .error e
      | .ok (dfF, _) => .ok (dfF.filter (fun r => chainIn r chain_lengths)) := rfl

theorem map_id_of_mem {α : Type} {f : α → α} :
    ∀ l : List α, (∀ a ∈ l, f a = a) → l.map f = l := by
  intro l
  induction l with
  | nil => intro _; rfl
  | cons a l ih =>
    intro hf
    rw [List.map_cons, hf a (List.mem_cons_self a l),
      ih (fun b hb => hf b (List.mem_cons_of_mem a hb))]

theorem closest_rt_subset_group {X : List Row} {time_val : String} {target_rt : Rat} :
    ∀ r ∈ closest_rt X time_val target_rt, r ∈ groupRows X time_val := by
  intro r hr
  rw [closest_rt] at hr
  cases hmin : listMin ((groupRows X time_val).map (rtDiff target_rt)) with
  | none =>
    rw [hmin] at hr
    cases hr
  | some m =>
    rw [hmin] at hr
    have hr' : r ∈ (groupRows X time_val).filter (inBand m target_rt) := hr
    exact (List.mem_filter.mp hr').1

theorem time_of_mem_groupRows {X : List Row} {time_val : String} {r : Row}
    (h : r ∈ groupRows X time_val) : r.time = time_val := by
  rw [groupRows, List.mem_filter] at h
  simpa using h.2

theorem chainIn_of_some {r : Row} {labels : List String} {k : String}
    (h : r.chain = some k) (hk : k ∈ labels) : chainIn r labels = true := by
  rw [chainIn, h]
  simp only [List.contains, List.elem_iff]
  exact hk

/-- Claim C10: on the prompt-free path, reclassifying the classifier's output
with the same reference table reproduces that output exactly.  The hypothesis
on the keys holds for every table `ask_user_for_rt` can build (its keys are
exactly the nine accepted chain labels). -/
theorem process_dataframe_idempotent (df df1 : List Row) (dict : RtDict)
    (folder_path : String) (hkeys : ∀ p ∈ dict, p.1 ∈ chain_lengths)
    (h1 : process_dataframe df (some dict) folder_path [] = .ok df1) :
    process_dataframe df1 (some dict) folder_path [] = .ok df1 := by
  rw [process_dataframe_some] at h1
  cases hrun : runTimes dict (uniqueFirst ((df.map stripChain).map Row.time))
      (df.map stripChain) [] with
  | error e =>
    rw [hrun] at h1
    exact absurd h1 (by simp)
  | ok q =>
    obtain ⟨dfF, sF⟩ := q
    rw [hrun] at h1
    simp only [Except.ok.injEq] at h1
    obtain ⟨hF, _, hnt⟩ := runTimes_ok rfl hrun
    have hsubdf1 : df1.Sublist dfF := by
      rw [← h1]
      exact List.filter_sublist _
    have hmemdf1 : ∀ x ∈ df1, chainIn x chain_lengths = true := by
      intro x hx
      rw [← h1] at hx
      exact (List.mem_filter.mp hx).2
    have hdfFstrip : dfF.map stripChain = df.map stripChain := by
      rw [hF, List.map_map]
      have h2 : (df.map stripChain).map (stripChain ∘ runTimesF (df.map stripChain) dict
          (uniqueFirst ((df.map stripChain).map Row.time))) =
          (df.map stripChain).map stripChain :=
        list_map_congr_mem _ (fun r _ => stripChain_runTimesF _ _ _ r)
      rw [h2, List.map_map]
      exact list_map_congr_mem df (fun r _ => stripChain_idem r)
    have hsub1 : (df1.map stripChain).Sublist (df.map stripChain) := by
      rw [← hdfFstrip]
      exact List.Sublist.map stripChain hsubdf1
    have hstripfix : ∀ r0 ∈ df.map stripChain, stripChain r0 = r0 := by
      intro r0 hr0
      rw [List.mem_map] at hr0
      obtain ⟨y, _, hy⟩ := hr0
      rw [← hy, stripChain_idem]
    have hxG : ∀ x ∈ df1, stripChain x ∈ df.map stripChain ∧
        x = runTimesF (df.map stripChain) dict
          (uniqueFirst ((df.map stripChain).map Row.time)) (stripChain x) := by
      intro x hx
      have hxF : x ∈ dfF := hsubdf1.subset hx
      rw [hF, List.mem_map] at hxF
      obtain ⟨r0, hr0, hxr0⟩ := hxF
      have hsx : stripChain x = r0 := by
        rw [← hxr0, stripChain_runTimesF]
        exact hstripfix r0 hr0
      rw [hsx]
      exact ⟨hr0, hxr0.symm⟩
    have hpack : ∀ t' ∈ uniqueFirst ((df1.map stripChain).map Row.time),
        ∀ p ∈ dict, ∀ g : Rat, p.2 = some g →
          closest_rt (df1.map stripChain) t' g = closest_rt (df.map stripChain) t' g ∧
            (closest_rt (df.map stripChain) t' g).length = 1 := by
      intro t' ht' p hp g hg
      rw [mem_uniqueFirst, List.mem_map] at ht'
      obtain ⟨y, hy, hyt⟩ := ht'
      have hyD0 : y ∈ df.map stripChain := hsub1.subset hy
      have htTS : t' ∈ uniqueFirst ((df.map stripChain).map Row.time) := by
        rw [mem_uniqueFirst, List.mem_map]
        exact ⟨y, hyD0, hyt⟩
      have hntt := hnt t' htTS p hp g hg
      have hne : closest_rt (df.map stripChain) t' g ≠ [] := by
        intro hnil
        have hgnil := closest_rt_nil_group hnil
        have hygrp : y ∈ groupRows (df.map stripChain) t' := by
          rw [groupRows, List.mem_filter]
          exact ⟨hyD0, by simp [hyt]⟩
        rw [hgnil] at hygrp
        cases hygrp
      obtain ⟨w, hwcr⟩ : ∃ w, closest_rt (df.map stripChain) t' g = [w] := by
        cases hcr : closest_rt (df.map stripChain) t' g with
        | nil => exact absurd hcr hne
        | cons w ws =>
          cases ws with
          | nil => exact ⟨w, rfl⟩
          | cons w2 ws2 =>
            exfalso
            rw [hcr] at hntt
            simp at hntt
      have hwgrp : w ∈ groupRows (df.map stripChain) t' :=
        closest_rt_subset_group w (by rw [hwcr]; exact List.mem_cons_self w [])
      have hwD0 : w ∈ df.map stripChain := by
        rw [groupRows] at hwgrp
        exact (List.mem_filter.mp hwgrp).1
      have hwt : w.time = t' := time_of_mem_groupRows hwgrp
      have hwTS : w.time ∈ uniqueFirst ((df.map stripChain).map Row.time) := by
        rw [mem_uniqueFirst, List.mem_map]
        exact ⟨w, hwD0, rfl⟩
      have hGw : runTimesF (df.map stripChain) dict
          (uniqueFirst ((df.map stripChain).map Row.time)) w =
          runChainsF (df.map stripChain) w.time dict w :=
        runTimesF_eq_runChainsF (nodup_uniqueFirst _) hwTS
      have hsel : chainSel (df.map stripChain) w.time g = some w.rt := by
        rw [chainSel, hwt, hwcr]
      obtain ⟨k, hk, hGwchain⟩ := chain_runChainsF_fired (df.map stripChain) w.time dict w
        rfl ⟨p, hp, g, hg, hsel⟩
      have hGwdf1 : runTimesF (df.map stripChain) dict
          (uniqueFirst ((df.map stripChain).map Row.time)) w ∈ df1 := by
        rw [← h1, List.mem_filter]
        constructor
        · rw [hF, List.mem_map]
          exact ⟨w, hwD0, rfl⟩
        · have hchain : (runTimesF (df.map stripChain) dict
              (uniqueFirst ((df.map stripChain).map Row.time)) w).chain = some k := by
            rw [hGw]
            exact hGwchain
          obtain ⟨p', hp', hk'⟩ := List.mem_map.mp hk
          exact chainIn_of_some hchain (hk' ▸ hkeys p' hp')
      have hwdf1' : w ∈ df1.map stripChain := by
        rw [List.mem_map]
        refine ⟨runTimesF (df.map stripChain) dict
          (uniqueFirst ((df.map stripChain).map Row.time)) w, hGwdf1, ?_⟩
        rw [stripChain_runTimesF]
        exact hstripfix w hwD0
      have hstab := closest_rt_stable hsub1 hwcr hwdf1'
      constructor
      · rw [hstab, hwcr]
      · rw [hwcr]
        rfl
    have hnt2 : ∀ t' ∈ uniqueFirst ((df1.map stripChain).map Row.time),
        NoTie (df1.map stripChain) t' dict := by
      intro t' ht' p hp g hg
      obtain ⟨heq, hlen⟩ := hpack t' ht' p hp g hg
      rw [heq, hlen]
    have hselEq : ∀ t' ∈ uniqueFirst ((df1.map stripChain).map Row.time),
        ∀ p ∈ dict, ∀ g : Rat, p.2 = some g →
          chainSel (df1.map stripChain) t' g = chainSel (df.map stripChain) t' g := by
      intro t' ht' p hp g hg
      obtain ⟨heq, _⟩ := hpack t' ht' p hp g hg
      rw [chainSel, chainSel, heq]
    have hrun2 := runTimes_complete rfl hnt2
    have hfold : (df1.map stripChain).map (runTimesF (df1.map stripChain) dict
        (uniqueFirst ((df1.map stripChain).map Row.time))) = df1 := by
      rw [List.map_map]
      apply map_id_of_mem
      intro x hx
      obtain ⟨hr0mem, hxe⟩ := hxG x hx
      have hr0df1' : stripChain x ∈ df1.map stripChain :=
        List.mem_map_of_mem stripChain hx
      have ht0' : (stripChain x).time ∈
          uniqueFirst ((df1.map stripChain).map Row.time) := by
        rw [mem_uniqueFirst, List.mem_map]
        exact ⟨stripChain x, hr0df1', rfl⟩
      have ht0 : (stripChain x).time ∈
          uniqueFirst ((df.map stripChain).map Row.time) := by
        rw [mem_uniqueFirst, List.mem_map]
        exact ⟨stripChain x, hr0mem, rfl⟩
      show runTimesF (df1.map stripChain) dict
        (uniqueFirst ((df1.map stripChain).map Row.time)) (stripChain x) = x
      rw [runTimesF_eq_runChainsF (nodup_uniqueFirst _) ht0']
      rw [runChainsF_congr dict (hselEq (stripChain x).time ht0') (stripChain x)]
      rw [← runTimesF_eq_runChainsF (nodup_uniqueFirst _) ht0]
      exact hxe.symm
    rw [process_dataframe_some, hrun2]
    show Except.ok (((df1.map stripChain).map (runTimesF (df1.map stripChain) dict
        (uniqueFirst ((df1.map stripChain).map Row.time)))).filter
        (fun r => chainIn r chain_lengths)) = .ok df1
    rw [hfold]
    rw [List.filter_eq_self.mpr hmemdf1]

/-- A two-row acquisition group before classification. -/
def c10df : List Row :=
  [{ id1 := "S2", time := "T1", rt := 500, area := 1, dateTime := 0, chain := none },
    { id1 := "S2", time := "T1", rt := 600, area := 1, dateTime := 0, chain := none }]

/-- The classifier's output on `c10df` under `wDictC16`. -/
def c10row : Row :=
  { id1 := "S2", time := "T1", rt := 500, area := 1, dateTime := 0, chain := some "C16" }

/-- Claim C10 witness: a concrete prompt-free run whose output, reclassified
with the same reference table, is reproduced exactly. -/
theorem process_dataframe_idempotent_witness :
    (∀ p ∈ wDictC16, p.1 ∈ chain_lengths) ∧
      process_dataframe c10df (some wDictC16) "figs" [] = .ok [c10row] ∧
      process_dataframe [c10row] (some wDictC16) "figs" [] = .ok [c10row] :=
  ⟨by decide, by decide,
    process_dataframe_idempotent c10df [c10row] wDictC16 "figs" (by decide) (by decide)⟩
